import Mathlib

/-!
Shallow embedding of the CopyQ `itemsync` plugin
(`src/plugins/itemsync/itemsync.cpp`) and proofs about the claims of the
specification.  Qt containers are modelled as follows: `QByteArray` is a
list of byte values (`Bytes`), `QVariantMap` is a key-sorted association
list (`VMap`, mirroring `QMap`'s sorted iteration order), `QMultiMap<Hash,
QString>` is a list of pairs, and the synchronised directory is a list of
`DiskFile` records (path, content, hidden/readable flags), kept in
oldest-first order to mirror the `QDir::Time | QDir::Reversed` listings the
code uses.
-/

set_option maxRecDepth 40000

namespace ItemSync

abbrev Bytes := List Nat

/-- QString::endsWith, on the character lists (kernel-reducible). -/
def strEndsWith (s p : String) : Bool := p.toList.isSuffixOf s.toList

/-- QString::startsWith, on the character lists (kernel-reducible). -/
def strStartsWith (s p : String) : Bool := p.toList.isPrefixOf s.toList

/-- QVariant, restricted to the value shapes the itemsync code stores:
byte arrays (payloads, hashes), strings (basename, sync path), integers
(config version), string lists (saved files) and the two map shapes that
occur (mime-to-extension maps with string values, no-save / unknown-data
maps with byte-array values). -/
inductive Variant where
  | bytes (b : Bytes)
  | str (s : String)
  | int (n : Int)
  | strlist (l : List String)
  | smap (m : List (String × String))
  | bmap (m : List (String × Bytes))
deriving DecidableEq

/-- First-match lookup in an association list (QMap::value / contains). -/
def mlookup {κ : Type} {α : Type} [DecidableEq κ] (k : κ) : List (κ × α) → Option α
  | [] => none
  | (k2, v) :: t => if k2 = k then some v else mlookup k t

def mcontains {κ : Type} {α : Type} [DecidableEq κ] (k : κ) (m : List (κ × α)) : Bool :=
  (mlookup k m).isSome

/-- Lexicographic comparison of character lists (QString::operator<). -/
def charListLt : List Char → List Char → Bool
  | [], [] => false
  | [], _ :: _ => true
  | _ :: _, [] => false
  | a :: s, b :: t => if a = b then charListLt s t else decide (a < b)

/-- QString::operator<, kernel-reducible. -/
def strLt (a b : String) : Bool := charListLt a.toList b.toList

/-- QMap insertion: the result stays sorted by key when the input is, and
an existing binding of the key is replaced. -/
def minsert {α : Type} (k : String) (v : α) : List (String × α) → List (String × α)
  | [] => [(k, v)]
  | (k2, v2) :: t =>
    if strLt k k2 then (k, v) :: (k2, v2) :: t
    else if k = k2 then (k, v) :: t
    else (k2, v2) :: minsert k v t

/-- QMap::remove — drops every binding of the key. -/
def mremove {κ : Type} {α : Type} [DecidableEq κ] (k : κ) : List (κ × α) → List (κ × α)
  | [] => []
  | p :: t => if p.1 = k then mremove k t else p :: mremove k t

def mkeys {κ : Type} {α : Type} (m : List (κ × α)) : List κ := m.map Prod.fst

def mvalue {κ : Type} {α : Type} [DecidableEq κ] (m : List (κ × α)) (k : κ) (d : α) : α :=
  (mlookup k m).getD d

abbrev VMap := List (String × Variant)

/-- Digit-string value (used by QString::toInt and QVariant conversions). -/
def natDigitsVal (l : List Char) : Nat :=
  l.foldl (fun a c => a * 10 + (c.toNat - 48)) 0

/-- QString::toInt semantics on the whole string: all characters must be
digits (with an optional leading minus); otherwise the result is 0. -/
def parseIntChars : List Char → Int
  | [] => 0
  | '-' :: t => if !t.isEmpty && t.all Char.isDigit then - Int.ofNat (natDigitsVal t) else 0
  | cs => if cs.all Char.isDigit then Int.ofNat (natDigitsVal cs) else 0

def strBytes (s : String) : Bytes := s.toList.map Char.toNat

def bytesToStr (b : Bytes) : String := (b.map Char.ofNat).asString

def Variant.toByteArray : Variant → Bytes
  | .bytes b => b
  | .str s => strBytes s
  | .int n => strBytes (toString n)
  | .strlist _ => []
  | .smap _ => []
  | .bmap _ => []

def Variant.toStr : Variant → String
  | .bytes b => bytesToStr b
  | .str s => s
  | .int n => toString n
  | .strlist _ => ""
  | .smap _ => ""
  | .bmap _ => ""

def Variant.toInt : Variant → Int
  | .bytes b => parseIntChars (b.map Char.ofNat)
  | .str s => parseIntChars s.toList
  | .int n => n
  | .strlist _ => 0
  | .smap _ => 0
  | .bmap _ => 0

def Variant.toSMap : Variant → List (String × String)
  | .smap m => m
  | _ => []

def Variant.toBMap : Variant → List (String × Bytes)
  | .bmap m => m
  | _ => []

/-! Constants of the plugin (itemsync.cpp lines 58-81).  The mime constants
come from the host headers `common/common.h` / `common/contenttype.h`, which
are outside `src/`; their values are the ones CopyQ uses
(`MIME_PREFIX` is `application/x-copyq-`). -/

def dataFileHeader : String := "CopyQ_itemsync_tab"

def configVersion : String := "copyq_itemsync_version"

def tabConfigSavedFiles : String := "saved_files"

def dataFileSuffix : String := "_copyq.dat"

def mimePrefixAll : String := "application/x-copyq-"

def mimePrefixItemSync : String := "application/x-copyq-itemsync-"

def mimeExtensionMap : String := mimePrefixItemSync ++ "mime-to-extension-map"

def mimeBaseName : String := mimePrefixItemSync ++ "basename"

def mimeNoSave : String := mimePrefixItemSync ++ "no-save"

def mimeSyncPath : String := mimePrefixItemSync ++ "sync-path"

def mimeItemNotes : String := "application/x-copyq-item-notes"

def mimeHtml : String := "text/html"

def mimeText : String := "text/plain"

def mimeUriList : String := "text/uri-list"

def sizeLimit : Nat := 10485760

def currentVersion : Int := 1

/-- Extension/format pair (struct Ext, itemsync.cpp line 233). -/
structure Ext where
  extension : String
  format : String
deriving DecidableEq

/-- User-configured file format (struct FileFormat, itemsync.cpp line 49). -/
structure FileFormat where
  extensions : List String
  itemMime : String
  icon : String
deriving DecidableEq

/-- Built-in extension table (fileExtensionsAndFormats, lines 245-269). -/
def fileExtensionsAndFormats : List Ext :=
  [ ⟨"_note.txt", mimeItemNotes⟩
  , ⟨".bmp", "image/bmp"⟩
  , ⟨".gif", "image/gif"⟩
  , ⟨".html", mimeHtml⟩
  , ⟨"_inkscape.svg", "image/x-inkscape-svg-compressed"⟩
  , ⟨".jpg", "image/jpeg"⟩
  , ⟨".jpg", "image/jpeg"⟩
  , ⟨".png", "image/png"⟩
  , ⟨".txt", mimeText⟩
  , ⟨".uri", mimeUriList⟩
  , ⟨".xml", "application/xml"⟩
  , ⟨"_xml.svg", "image/svg+xml"⟩
  , ⟨".xml", "text/xml"⟩
  , ⟨dataFileSuffix, ""⟩ ]

/-- findByFormat (lines 271-283): the user extension map is searched first,
then the built-in table; first match wins. -/
def findByFormat (format : String) (exts : List Ext)
    (userExtension : List (String × String)) : Ext :=
  match mlookup format userExtension with
  | some e => ⟨e, format⟩
  | none => ((exts.find? (fun e => e.format == format)).getD ⟨"", ""⟩)

/-- findByExtension (lines 285-294): first entry whose extension is a
suffix of the file name. -/
def findByExtension (fileName : String) (exts : List Ext) : Ext :=
  ((exts.find? (fun e => strEndsWith fileName e.extension)).getD ⟨"", ""⟩)

def findExtIn (fileName : String) : List String → Option String
  | [] => none
  | e :: t => if strEndsWith fileName e then some e else findExtIn fileName t

/-- getFormatSettingsFromFileName (lines 142-157): first user format with a
matching extension, together with the matched extension. -/
def getFormatSettingsFromFileName (fileName : String) :
    List FileFormat → Option (FileFormat × String)
  | [] => none
  | f :: t =>
    match findExtIn fileName f.extensions with
    | some e => some (f, e)
    | none => getFormatSettingsFromFileName fileName t

/-- Character replacement of `QRegExp("/|\\\\|^\\.")` by an underscore:
every slash and backslash anywhere, plus a dot in leading position. -/
def sanitizeChar (c : Char) : Char :=
  if c = '/' ∨ c = '\\' then '_' else c

/-- The sanitising step of renameToUnique (lines 170-173): replace unsafe
characters and strip CR and LF. -/
def sanitizeName (s : String) : String :=
  let cs :=
    match s.toList with
    | [] => []
    | c :: t => (if c = '.' then '_' else sanitizeChar c) :: t.map sanitizeChar
  (cs.filter (fun c => c ≠ '\n' ∧ c ≠ '\r')).asString

def strLeft (s : String) (n : Nat) : String := (s.toList.take n).asString

/-- QString::mid(lastIndexOf('.')) — the suffix from the final dot,
or the empty string when there is no dot. -/
def extFromLastDot (s : String) : String :=
  let r := s.toList.reverse
  let seg := r.takeWhile (fun c => c ≠ '.')
  if seg.length = r.length then "" else ('.' :: seg.reverse).asString

/-- Extension/base/counter split of renameToUnique (lines 180-204):
returns (base, extension, initial counter, zero-pad field width). -/
def splitNameForRename (name : String) (fmts : List FileFormat) :
    String × String × Nat × Nat :=
  let ext0 :=
    match getFormatSettingsFromFileName name fmts with
    | some (_, e) => e
    | none => extFromLastDot name
  let base0 := strLeft name (name.toList.length - ext0.toList.length)
  let be :=
    if strEndsWith base0 "." then ((base0.toList.dropLast).asString, "." ++ ext0)
    else (base0, ext0)
  let ds := be.1.toList.reverse.takeWhile Char.isDigit
  if ds.isEmpty then (be.1 ++ "-", be.2, 0, 0)
  else
    let iv := natDigitsVal ds.reverse
    ( (be.1.toList.take (be.1.toList.length - ds.length)).asString
    , be.2
    , if iv ≤ 2147483647 then iv else 0
    , ds.length )

/-- `QString("%1").arg(i, w, 10, QChar('0'))`: decimal, left-padded with
zeros to a minimum field width. -/
def padNum (i w : Nat) : String :=
  (List.replicate (w - (toString i).toList.length) '0').asString ++ toString i

/-- The retry loop of renameToUnique (lines 206-211).  The fuel (100000) is
enough for the counter to reach the 99999 ceiling, so the loop semantics
coincide with the source's do/while. -/
def renameLoop (used : List String) (base ext : String) (w : Nat) :
    Nat → Nat → Option String
  | 0, _ => none
  | fuel + 1, i =>
    if 99999 ≤ i then none
    else
      let newName := base ++ padNum (i + 1) w ++ ext
      if used.contains newName then renameLoop used base ext w fuel (i + 1)
      else some newName

/-- renameToUnique (lines 164-217).  `none` models returning false; on
success the new name and the extended used-name list are returned. -/
def renameToUnique (name : String) (usedNames : List String)
    (fmts : List FileFormat) : Option (String × List String) :=
  let n1 := if name = "" then "copyq_0000" else sanitizeName name
  if usedNames.contains n1 then
    match splitNameForRename n1 fmts with
    | (base, ext, i0, w) =>
      match renameLoop usedNames base ext w 100000 i0 with
      | some nn => some (nn, usedNames ++ [nn])
      | none => none
  else some (n1, usedNames ++ [n1])

/-! Hashing.  `QCryptographicHash::hash(bytes, Sha1)` is external to this
repository.  Modelled from the spec: SHA-1 is a deterministic digest of
fixed length (20 bytes) that is collision-free for all practical purposes;
the model realises it as an injective encoding of the input followed by
19 zero bytes, which is exactly as much structure as the plugin relies on
(nonempty fixed-length output, no collisions). -/

def listCode : Bytes → Nat
  | [] => 0
  | a :: t => Nat.pair a (listCode t) + 1

/-- calculateHash(const QByteArray &) (lines 296-299), with SHA-1 modelled
as described above. -/
def calculateHash (b : Bytes) : Bytes :=
  listCode b :: List.replicate 19 0

/-- calculateHash(QFile *) (lines 301-307): files above the size limit get
an empty hash. -/
def calculateHashFile (content : Bytes) : Bytes :=
  if sizeLimit < content.length then [] else calculateHash content

/-- A file of the synchronised directory: absolute path, content and the
QFileInfo flags the code inspects. -/
structure DiskFile where
  path : String
  content : Bytes
  hidden : Bool
  readable : Bool
deriving DecidableEq

/-- The synchronised directory, oldest file first (`QDir::Time |
QDir::Reversed` order); writing appends, so a rewritten file moves to the
newest position, as its modification time would make it. -/
abbrev FS := List DiskFile

def fsFind (fs : FS) (p : String) : Option DiskFile :=
  fs.find? (fun f => f.path == p)

def fsRemove (fs : FS) (p : String) : FS :=
  fs.filter (fun f => f.path != p)

/-- A truncating write: any previous file at the path is replaced and the
file becomes the newest entry. -/
def fsWrite (fs : FS) (p : String) (b : Bytes) : FS :=
  fsRemove fs p ++ [⟨p, b, false, true⟩]

/-- QFile::copy — fails (is a no-op) when the destination exists or the
source is missing. -/
def fsCopy (fs : FS) (src dst : String) : FS :=
  match fsFind fs dst with
  | some _ => fs
  | none =>
    match fsFind fs src with
    | some f => fs ++ [⟨dst, f.content, false, true⟩]
    | none => fs

/-- QFile::rename — fails (is a no-op) when the destination exists or the
source is missing. -/
def fsRename (fs : FS) (src dst : String) : FS :=
  match fsFind fs dst with
  | some _ => fs
  | none =>
    match fsFind fs src with
    | some f => fsRemove fs src ++ [⟨dst, f.content, f.hidden, f.readable⟩]
    | none => fs

/-- `dir.entryList(itemFileFilter(), QDir::Time | QDir::Reversed)` as
absolute paths: readable, non-hidden files, oldest first (itemFileFilter,
lines 101-104; hidden entries are not listed by default). -/
def entryListByTime (fs : FS) : List String :=
  (fs.filter (fun f => f.readable && !f.hidden)).map DiskFile.path

/-- The hash → path multimap.  Only membership, per-key values and
pair removal are ever used, so the entry order is irrelevant. -/
abbrev HMap := List (Bytes × String)

def hmValues (h : Bytes) (m : HMap) : List String :=
  (m.filter (fun x => x.1 == h)).map Prod.snd

def hmRemove (h : Bytes) (p : String) (m : HMap) : HMap :=
  m.filter (fun x => !(x.1 == h && x.2 == p))

/-- listFiles(const QDir &) (lines 385-400): hash of every listed file,
keyed for the write-elision check of saveItemFile. -/
def listFilesDir (fs : FS) : HMap :=
  (fs.filter (fun f => f.readable && !f.hidden)).map
    (fun f => (calculateHashFile f.content, f.path))

/-- Result of saveItemFile: the directory and multimap afterwards, whether
the call succeeded, and whether a write to the file was performed. -/
structure SaveFileResult where
  fs : FS
  existing : HMap
  ok : Bool
  wrote : Bool
deriving DecidableEq

/-- saveItemFile (lines 309-327).  `ioFail` is the environment's I/O-error
oracle for opening/writing a path; a failed write leaves the file truncated
(the open succeeded with QIODevice::WriteOnly before the write failed). -/
def saveItemFile (ioFail : String → Bool) (fs : FS) (filePath : String)
    (b : Bytes) (existing : HMap) : SaveFileResult :=
  let hash := calculateHash b
  if (hmValues hash existing).contains filePath then
    ⟨fs, hmRemove hash filePath existing, true, false⟩
  else if ioFail filePath then ⟨fsWrite fs filePath [], existing, false, true⟩
  else ⟨fsWrite fs filePath b, existing, true, true⟩

/-! The sidecar / manifest value codec.  Modelled from the spec: the code
reuses the host's `item/serialize.h` variant-stream functions
(serializeData / deserializeData), which are outside `src/`; per §4.C/§9 of
the specification the format is a deterministic, round-tripping
length-prefixed map of (string, bytes) pairs, which is what is implemented
here. -/

def encodeStr (s : String) : Bytes :=
  s.toList.length :: s.toList.map Char.toNat

def serializeData : List (String × Bytes) → Bytes
  | [] => []
  | (k, v) :: t => encodeStr k ++ (v.length :: v) ++ serializeData t

def decodeKV : Nat → Bytes → Option (List (String × Bytes))
  | _, [] => some []
  | 0, _ :: _ => none
  | fuel + 1, n :: rest =>
    if (rest.take n).length = n then
      match rest.drop n with
      | m :: rest2 =>
        if (rest2.take m).length = m then
          match decodeKV fuel (rest2.drop m) with
          | some t => some ((((rest.take n).map Char.ofNat).asString, rest2.take m) :: t)
          | none => none
        else none
      | [] => none
    else none

/-- deserializeData: the decoded entries, or none on a malformed stream. -/
def deserializeData (b : Bytes) : Option (List (String × Bytes)) :=
  decodeKV b.length b

/-- QFileInfo data the scanner inspects for a path. -/
structure FileInfo where
  path : String
  hidden : Bool
  readable : Bool
deriving DecidableEq

/-- Base-name bucket (struct BaseNameExtensions, lines 329-332). -/
structure BaseNameExtensions where
  baseName : String
  exts : List Ext
deriving DecidableEq

/-- QFileInfo::fileName — the part of the path after the last slash. -/
def fileNameOf (path : String) : String :=
  (path.toList.foldl (fun acc c => if c = '/' then [] else acc ++ [c]) []).asString

/-- The flattened user extension list built at the top of
listFiles(const QStringList &, ...) (lines 341-345). -/
def userExtsOf (fmts : List FileFormat) : List Ext :=
  fmts.flatMap (fun f => f.extensions.map (fun e => Ext.mk e f.itemMime))

/-- Extension resolution of one path in the scanner (lines 354-366):
`none` means the file is skipped. -/
def resolveExt (path : String) (userExts builtins : List Ext) : Option Ext :=
  let e := findByExtension path userExts
  if e.extension = "" then
    let e2 := findByExtension path builtins
    if e2.format = "" then none else some e2
  else if e.format = "-" then none
  else if e.format = "" then some (findByExtension path builtins)
  else some ⟨"", e.format⟩

/-- Appends an extension to the bucket of the base name, creating the
bucket at the end on first sight (the fileMap bookkeeping of the source). -/
def addToBuckets (base : String) (e : Ext) :
    List BaseNameExtensions → List BaseNameExtensions
  | [] => [⟨base, [e]⟩]
  | b :: t =>
    if b.baseName = base then ⟨b.baseName, b.exts ++ [e]⟩ :: t
    else b :: addToBuckets base e t

/-- Processing of a single path by the scanner (body of the loop at lines
349-380). -/
def scanStep (userExts builtins : List Ext) (acc : List BaseNameExtensions)
    (f : FileInfo) : List BaseNameExtensions :=
  if f.hidden || strStartsWith (fileNameOf f.path) "." || !f.readable then acc
  else
    match resolveExt f.path userExts builtins with
    | none => acc
    | some e =>
      let fileName := fileNameOf f.path
      addToBuckets (strLeft fileName (fileName.toList.length - e.extension.toList.length)) e acc

/-- listFiles(const QStringList &, const QList<FileFormat> &)
(lines 335-383): group the given paths into base-name buckets. -/
def listFiles (files : List FileInfo) (fmts : List FileFormat) :
    List BaseNameExtensions :=
  files.foldl (scanStep (userExtsOf fmts) fileExtensionsAndFormats) []

/-- getBaseName (lines 159-162) on an item's data map. -/
def getBaseNameV (item : VMap) : String :=
  (mvalue item mimeBaseName (Variant.str "")).toStr

/-- Folds the decoded sidecar entries into the data map. -/
def mergeDecoded (dataMap : VMap) (entries : List (String × Bytes)) : VMap :=
  entries.foldl (fun m kv => minsert kv.1 (Variant.bytes kv.2) m) dataMap

/-- FileWatcher::updateDataAndWatchFile (lines 1036-1059): hydrate one
bucket from the directory.  Returns the data map and the
mime-to-extension map. -/
def FileWatcher.updateDataAndWatchFile (dirPath : String) (fs : FS)
    (bne : BaseNameExtensions) : VMap × List (String × String) :=
  let basePath := dirPath ++ "/" ++ bne.baseName
  bne.exts.foldl
    (fun acc e =>
      let fileName := basePath ++ e.extension
      match fsFind fs fileName with
      | none => acc
      | some df =>
        if !df.readable then acc
        else if strEndsWith fileName dataFileSuffix
            && (deserializeData df.content).isSome then
          ( mergeDecoded acc.1 ((deserializeData df.content).getD [])
          , minsert "" dataFileSuffix acc.2 )
        else if decide (sizeLimit < df.content.length) || e.format == "" then
          (acc.1, minsert "" "" acc.2)
        else
          ( minsert e.format (Variant.bytes df.content) acc.1
          , minsert e.format e.extension acc.2 ))
    ([], [])

/-- FileWatcher::createItemsFromFiles (lines 759-783): create one item per
bucket with a nonempty mime-to-extension map, inserting at row 0, until
the row cap is reached. -/
def FileWatcher.createItemsFromFiles (dirPath : String) (fs : FS)
    (maxItems : Nat) : List BaseNameExtensions → List VMap → List VMap
  | [], items => items
  | bne :: rest, items =>
    let dm := FileWatcher.updateDataAndWatchFile dirPath fs bne
    if dm.2.isEmpty then FileWatcher.createItemsFromFiles dirPath fs maxItems rest items
    else
      let dataMap2 :=
        minsert mimeExtensionMap (Variant.smap dm.2)
          (minsert mimeBaseName (Variant.str (fileNameOf bne.baseName)) dm.1)
      let items2 := dataMap2 :: items
      if maxItems ≤ items2.length then items2
      else FileWatcher.createItemsFromFiles dirPath fs maxItems rest items2

/-- Removes the first bucket with the given base name, if any, returning
it and the remaining buckets (the fileList search of lines 814-822). -/
def bucketExtract (base : String) :
    List BaseNameExtensions → Option (BaseNameExtensions × List BaseNameExtensions)
  | [] => none
  | b :: t =>
    if b.baseName = base then some (b, t)
    else
      match bucketExtract base t with
      | some (x, t2) => some (x, b :: t2)
      | none => none

/-- The row loop of FileWatcher::updateItems (lines 810-834): re-hydrate
each existing row from its bucket, removing rows whose bucket is gone or
empty.  Returns the rows kept and the buckets left over. -/
def FileWatcher.updateRows (dirPath : String) (fs : FS) :
    List VMap → List BaseNameExtensions → List VMap × List BaseNameExtensions
  | [], fl => ([], fl)
  | item :: rest, fl =>
    let baseName := getBaseNameV item
    match bucketExtract baseName fl with
    | some (b, fl2) =>
      let dm := FileWatcher.updateDataAndWatchFile dirPath fs b
      if dm.2.isEmpty then FileWatcher.updateRows dirPath fs rest fl2
      else
        let item2 :=
          minsert mimeExtensionMap (Variant.smap dm.2)
            (minsert mimeBaseName (Variant.str baseName) dm.1)
        match FileWatcher.updateRows dirPath fs rest fl2 with
        | (rest2, fl3) => (item2 :: rest2, fl3)
    | none => FileWatcher.updateRows dirPath fs rest fl

/-- The state a FileWatcher acts on: the model rows, the directory, and
the row → prior-base-name map (m_indexToBaseName; persistent-index
bookkeeping across row removals is not needed by any property proved
here and is not modelled beyond per-pass row numbers). -/
structure WState where
  items : List VMap
  fs : FS
  indexToBaseName : List (Nat × String)
deriving DecidableEq

/-- FileWatcher::updateItems (lines 795-844), direction R: list the
directory, bucket it, re-hydrate existing rows and create items from the
unmatched buckets. -/
def FileWatcher.updateItems (fmts : List FileFormat) (maxItems : Nat)
    (dirPath : String) (st : WState) : WState :=
  let infos :=
    (entryListByTime st.fs).map
      (fun p =>
        match fsFind st.fs p with
        | some f => FileInfo.mk p f.hidden f.readable
        | none => FileInfo.mk p false false)
  let fl := listFiles infos fmts
  match FileWatcher.updateRows dirPath st.fs st.items fl with
  | (items2, fl2) =>
    { st with items := FileWatcher.createItemsFromFiles dirPath st.fs maxItems fl2 items2 }

/-- removeFormatFiles (lines 693-699): delete `path ++ ext` for every
extension value of the map. -/
def removeFormatFiles (path : String) (mimeToExtension : List (String × String))
    (fs : FS) : FS :=
  mimeToExtension.foldl (fun fs2 kv => fsRemove fs2 (path ++ kv.2)) fs

/-- moveFormatFiles (lines 701-708). -/
def moveFormatFiles (oldPath newPath : String)
    (mimeToExtension : List (String × String)) (fs : FS) : FS :=
  mimeToExtension.foldl (fun fs2 kv => fsRename fs2 (oldPath ++ kv.2) (newPath ++ kv.2)) fs

/-- copyFormatFiles (lines 710-717). -/
def copyFormatFiles (oldPath newPath : String)
    (mimeToExtension : List (String × String)) (fs : FS) : FS :=
  mimeToExtension.foldl (fun fs2 kv => fsCopy fs2 (oldPath ++ kv.2) (newPath ++ kv.2)) fs

/-- Insertion for the row-keyed m_indexToBaseName map (iteration order of
this map is never used, only lookup). -/
def minsertNat {α : Type} (k : Nat) (v : α) (m : List (Nat × α)) : List (Nat × α) :=
  (k, v) :: mremove k m

/-- The per-row body of FileWatcher::renameToUnique once the allocator has
produced `bn` (lines 1009-1030): when the name changed or the item carries
a foreign sync path, files are copied or moved, m_indexToBaseName is
updated and the row data gets the new base name (with the sync path
dropped); otherwise everything is untouched.  Returns (row data,
m_indexToBaseName, file system). -/
def FileWatcher.renameRowStep (fmts : List FileFormat) (path : String) (item : VMap)
    (row : Nat) (i2b : List (Nat × String)) (fs : FS) (bn : String) :
    VMap × List (Nat × String) × FS :=
  let oldBaseName := getBaseNameV item
  let syncPath := (mvalue item mimeSyncPath (Variant.str "")).toStr
  if (syncPath ≠ "" ∧ syncPath ≠ path) ∨ bn ≠ oldBaseName then
    let m2e := (mvalue item mimeExtensionMap (Variant.smap [])).toSMap
    let newBasePath := path ++ "/" ++ bn
    let fs2 :=
      if syncPath ≠ "" then
        copyFormatFiles (syncPath ++ "/" ++ oldBaseName) newBasePath m2e fs
      else
        match mlookup row i2b with
        | some olderBaseName =>
          if olderBaseName ≠ "" then
            moveFormatFiles (path ++ "/" ++ olderBaseName) newBasePath m2e fs
          else fs
        | none => fs
    let i2b2 := if syncPath ≠ "" then i2b else minsertNat row bn i2b
    (minsert mimeBaseName (Variant.str bn) (mremove mimeSyncPath item), i2b2, fs2)
  else (item, i2b, fs)

/-- The loop of FileWatcher::renameToUnique (lines 1001-1031) over the rows
of the saved range, threading the used-name list, the file system and
m_indexToBaseName.  On allocator failure the remaining rows are left
untouched and the flag is false (the source returns early). -/
def FileWatcher.renameRows (fmts : List FileFormat) (path : String) :
    List VMap → Nat → List (Nat × String) → List String → FS →
    List VMap × List (Nat × String) × List String × FS × Bool
  | [], _, i2b, used, fs => ([], i2b, used, fs, true)
  | item :: rest, row, i2b, used, fs =>
    match renameToUnique (getBaseNameV item) used fmts with
    | none => (item :: rest, i2b, used, fs, false)
    | some (bn, used2) =>
      let step := FileWatcher.renameRowStep fmts path item row i2b fs bn
      let r := FileWatcher.renameRows fmts path rest (row + 1) step.2.1 used2 step.2.2
      (step.1 :: r.1, r.2.1, r.2.2.1, r.2.2.2.1, r.2.2.2.2)

/-- FileWatcher::renameToUnique (lines 989-1034): collect the base names of
the rows outside [first, last] (in row order), then rename the rows of the
range. -/
def FileWatcher.renameToUnique (fmts : List FileFormat) (path : String)
    (st : WState) (first last : Nat) : WState × Bool :=
  let pre := st.items.take first
  let slice := (st.items.drop first).take (last + 1 - first)
  let post := st.items.drop (last + 1)
  let used0 := pre.map getBaseNameV ++ post.map getBaseNameV
  let r := FileWatcher.renameRows fmts path slice first st.indexToBaseName used0 st.fs
  (⟨pre ++ r.1 ++ post, r.2.2.2.1, r.2.1⟩, r.2.2.2.2)

/-- The per-format loop of FileWatcher::saveItems (lines 937-958): iterate
over a snapshot of the item's keys, dropping no-save payloads, collecting
extension-less payloads into the unknown-data map and saving the rest.
`none` models aborting the whole batch on a failed write. -/
def FileWatcher.processFormats (ioFail : String → Bool) (filePath : String)
    (noSaveData : List (String × Bytes)) (oldM2E : List (String × String)) :
    List String → VMap → List (String × String) → List (String × Bytes) →
    FS → HMap →
    Option (VMap × List (String × String) × List (String × Bytes) × FS × HMap)
  | [], itemData, m2e, unknown, fs, ex => some (itemData, m2e, unknown, fs, ex)
  | k :: rest, itemData, m2e, unknown, fs, ex =>
    if strStartsWith k mimePrefixItemSync then
      FileWatcher.processFormats ioFail filePath noSaveData oldM2E rest itemData m2e unknown fs ex
    else
      let b := (mvalue itemData k (Variant.bytes [])).toByteArray
      if (match mlookup k noSaveData with
          | some h => h == calculateHash b
          | none => false) then
        FileWatcher.processFormats ioFail filePath noSaveData oldM2E rest
          (mremove k itemData) m2e unknown fs ex
      else
        let ext := (findByFormat k fileExtensionsAndFormats oldM2E).extension
        if !(mcontains k oldM2E) && ext == "" then
          FileWatcher.processFormats ioFail filePath noSaveData oldM2E rest
            itemData m2e (minsert k b unknown) fs ex
        else
          let r := saveItemFile ioFail fs (filePath ++ ext) b ex
          if r.ok then
            FileWatcher.processFormats ioFail filePath noSaveData oldM2E rest
              itemData (minsert k ext m2e) unknown r.fs r.existing
          else none

/-- The write-back tail of a saved row (lines 970-983): when the no-save
map was nonempty or the extension map changed, the row data is updated
(dropping the no-save map, installing the new extension map), files of
dropped formats are removed, and m_indexToBaseName is refreshed (flag
true); otherwise the row is left exactly as it was. -/
def FileWatcher.saveRowFinish (filePath : String) (item itemData : VMap)
    (oldM2E : List (String × String)) (noSaveData : List (String × Bytes))
    (m2e : List (String × String)) (fs3 : FS) (ex3 : HMap) : VMap × FS × HMap × Bool :=
  if !noSaveData.isEmpty || m2e ≠ oldM2E then
    ( minsert mimeExtensionMap (Variant.smap m2e) (mremove mimeNoSave itemData)
    , removeFormatFiles filePath ((mkeys m2e).foldl (fun m k => mremove k m) oldM2E) fs3
    , ex3
    , true )
  else (item, fs3, ex3, false)

/-- The per-row body of FileWatcher::saveItems (lines 925-984): run the
per-format loop over a snapshot of the keys, insert the empty-sentinel /
sidecar entries, write the sidecar, then the conditional write-back.
`none` models aborting the batch on a failed write. -/
def FileWatcher.saveRow (ioFail : String → Bool) (dirPath : String)
    (item : VMap) (fs : FS) (ex : HMap) :
    Option (VMap × FS × HMap × Bool) :=
  let baseName := getBaseNameV item
  let filePath := dirPath ++ "/" ++ baseName
  let oldM2E := (mvalue item mimeExtensionMap (Variant.smap [])).toSMap
  let noSaveData := (mvalue item mimeNoSave (Variant.bmap [])).toBMap
  match FileWatcher.processFormats ioFail filePath noSaveData oldM2E
      (mkeys item) item [] [] fs ex with
  | none => none
  | some (itemData, m2e0, unknown, fs2, ex2) =>
    let m2e1 := if m2e0.isEmpty then minsert "" "" m2e0 else m2e0
    if unknown.isEmpty then
      some (FileWatcher.saveRowFinish filePath item itemData oldM2E noSaveData m2e1 fs2 ex2)
    else
      let r := saveItemFile ioFail fs2 (filePath ++ dataFileSuffix)
        (serializeData unknown) ex2
      if r.ok then
        some (FileWatcher.saveRowFinish filePath item itemData oldM2E noSaveData
          (minsert "" dataFileSuffix m2e1) r.fs r.existing)
      else none

/-- The row loop of FileWatcher::saveItems (lines 925-984). -/
def FileWatcher.saveRowsLoop (ioFail : String → Bool) (dirPath : String) :
    List VMap → Nat → List (Nat × String) → FS → HMap →
    List VMap × List (Nat × String) × FS × Bool
  | [], _, i2b, fs, _ => ([], i2b, fs, true)
  | item :: rest, row, i2b, fs, ex =>
    match FileWatcher.saveRow ioFail dirPath item fs ex with
    | none => (item :: rest, i2b, fs, false)
    | some (item2, fs2, ex2, updated) =>
      let i2b2 := if updated then minsertNat row (getBaseNameV item) i2b else i2b
      let r := FileWatcher.saveRowsLoop ioFail dirPath rest (row + 1) i2b2 fs2 ex2
      (item2 :: r.1, r.2.1, r.2.2.1, r.2.2.2)

/-- FileWatcher::saveItems (lines 906-987), direction W: rename the rows of
the range to unique base names, then write each row's payloads with
hash-based elision.  The flag is m_valid at the end of the pass (false on
any early return, since the source only reconnects at the end); creating
the directory (dir.mkpath) is assumed to succeed. -/
def FileWatcher.saveItems (fmts : List FileFormat) (dirPath : String)
    (ioFail : String → Bool) (st : WState) (first last : Nat) : WState × Bool :=
  let pre := st.items.take first
  let slice := (st.items.drop first).take (last + 1 - first)
  let post := st.items.drop (last + 1)
  let used0 := pre.map getBaseNameV ++ post.map getBaseNameV
  let r := FileWatcher.renameRows fmts dirPath slice first st.indexToBaseName used0 st.fs
  if !r.2.2.2.2 then (⟨pre ++ r.1 ++ post, r.2.2.2.1, r.2.1⟩, false)
  else if dirPath = "" then (⟨pre ++ r.1 ++ post, r.2.2.2.1, r.2.1⟩, false)
  else
    let w := FileWatcher.saveRowsLoop ioFail dirPath r.1 first r.2.1 r.2.2.2.1
      (listFilesDir r.2.2.2.1)
    (⟨pre ++ w.1 ++ post, w.2.2.1, w.2.1⟩, w.2.2.2)

/-- readConfigHeader (lines 115-120); the QDataStream string decode is
external, so the already-decoded leading string is the input. -/
def readConfigHeader (header : String) : Bool :=
  header == dataFileHeader

/-- readConfig (lines 122-129) on a decoded stream (leading string plus
decoded variant map): header check, then version check with default 0. -/
def readConfig (header : String) (config : VMap) : Bool :=
  readConfigHeader header
    && (mvalue config configVersion (Variant.int 0)).toInt == currentVersion

/-- writeConfiguration (lines 131-140): the header string and the config
map that are streamed to the tab file. -/
def writeConfiguration (savedFiles : List String) : String × VMap :=
  ( dataFileHeader
  , minsert tabConfigSavedFiles (Variant.strlist savedFiles)
      (minsert configVersion (Variant.int currentVersion) []) )

/-- The watcher state ItemSyncLoader::saveItems consults. -/
structure Watcher where
  path : String
  valid : Bool
deriving DecidableEq

/-- The savedFiles list gathered by ItemSyncLoader::saveItems (lines
1253-1262): per row in ascending order, each extension value is prepended,
so the result is the reverse of the traversal order. -/
def savedFilesOf (path : String) (items : List VMap) : List String :=
  items.foldl
    (fun acc item =>
      ((mvalue item mimeExtensionMap (Variant.smap [])).toSMap).foldl
        (fun acc2 kv => (path ++ "/" ++ getBaseNameV item ++ kv.2) :: acc2) acc)
    []

/-- ItemSyncLoader::saveItems (lines 1231-1268).  `none` models returning
false (fall back to the host's own persistence); `some` carries the
manifest written to the tab file. -/
def ItemSyncLoader.saveItems (watcher : Option Watcher) (items : List VMap) :
    Option (String × VMap) :=
  match watcher with
  | none => none
  | some w =>
    if w.path = "" then some (writeConfiguration [])
    else if !w.valid then none
    else some (writeConfiguration (savedFilesOf w.path items))

/-- The backslash escaping applied to file paths for the synthesized
text/plain payload in ItemSyncLoader::copyItem (lines 1426-1429). -/
def escapeFilePath (p : String) : String :=
  (p.toList.flatMap
    (fun c =>
      if c = '\\' then ['\\', '\\']
      else if c = '\n' then ['\\', 'n']
      else if c = '\r' then ['\\', 'r']
      else [c])).asString

/-- The `file://` URI of a local path.  Modelled from the spec:
`QUrl::fromLocalFile(path).toEncoded()` is external to this repository;
per §4.H the synthesized text/uri-list holds one URI per file, modelled
here as the file scheme prefix followed by the path. -/
def urlFromLocalFile (p : String) : Bytes :=
  strBytes ("file://" ++ p)

/-- The text/uri-list payload synthesized by ItemSyncLoader::copyItem
(lines 1407-1421): one file URI per extension-map entry, separated by
newlines. -/
def synthUriData (tabPath : String) (itemData : VMap) : Bytes :=
  ((mvalue itemData mimeExtensionMap (Variant.smap [])).toSMap).foldl
    (fun acc kv =>
      (if acc.isEmpty then acc else acc ++ strBytes "\n")
        ++ urlFromLocalFile
          ((tabPath ++ "/" ++ (mvalue itemData mimeBaseName (Variant.str "")).toStr) ++ kv.2)) []

/-- The text/plain payload synthesized by ItemSyncLoader::copyItem
(lines 1423-1430): the escaped file paths, separated by newlines. -/
def synthTextData (tabPath : String) (itemData : VMap) : Bytes :=
  ((mvalue itemData mimeExtensionMap (Variant.smap [])).toSMap).foldl
    (fun acc kv =>
      (if acc.isEmpty then acc else acc ++ strBytes "\n")
        ++ strBytes (escapeFilePath
          ((tabPath ++ "/" ++ (mvalue itemData mimeBaseName (Variant.str "")).toStr) ++ kv.2))) []

/-- ItemSyncLoader::copyItem (lines 1397-1446): stamp the sync path,
synthesize text/plain and text/uri-list from the extension map when they
are absent, and record the hashes of the synthesized payloads under the
no-save key. -/
def ItemSyncLoader.copyItem (tabPath : String) (itemData : VMap) : VMap :=
  let copied := minsert mimeSyncPath (Variant.str tabPath) itemData
  let updateUriData := !(mcontains mimeUriList copied)
  let updateTextData := !(mcontains mimeText copied)
  if updateUriData || updateTextData then
    let uriData := synthUriData tabPath itemData
    let textData := synthTextData tabPath itemData
    let c2 := if updateUriData then minsert mimeUriList (Variant.bytes uriData) copied else copied
    let c3 := if updateTextData then minsert mimeText (Variant.bytes textData) c2 else c2
    let ns1 : List (String × Bytes) :=
      if updateUriData then minsert mimeUriList (calculateHash uriData) [] else []
    let ns2 :=
      if updateTextData then minsert mimeText (calculateHash textData) ns1 else ns1
    minsert mimeNoSave (Variant.bmap ns2) c3
  else copied

/-! Concrete instances used by the claim theorems below. -/

/-- A payload whose MIME has no registered extension (spec scenario 5). -/
def c1Item : VMap := [("application/x-custom", Variant.bytes [1, 2, 3])]

/-- A tab holding only `c1Item`, with an empty directory. -/
def c1State : WState := ⟨[c1Item], [], []⟩

/-- The tab after a full direction-W pass over its single row. -/
def c1AfterW : WState × Bool :=
  FileWatcher.saveItems [] "/tab" (fun _ => false) c1State 0 0

/-- A file content exceeding the 10 MiB size limit by one byte. -/
def bigContent : Bytes := List.replicate 10485761 0

theorem bigContent_length : bigContent.length = 10485761 := by
  rw [bigContent, List.length_replicate]

/-- An oversized but otherwise ordinary text file in the tab directory. -/
def c2File : DiskFile := ⟨"/tab/big.txt", bigContent, false, true⟩

/-- The bucket the scanner builds for `c2File`. -/
def c2Bucket : BaseNameExtensions := ⟨"big", [⟨".txt", mimeText⟩]⟩

/-- An item that already carries a sync path as well as both text payloads
(key-sorted). -/
def c10Input : VMap :=
  [ (mimeSyncPath, Variant.str "/old")
  , (mimeText, Variant.bytes [104])
  , (mimeUriList, Variant.bytes [117]) ]

/-! Helper lemmas about the association-map operations. -/

theorem mlookup_minsert_self {α : Type} (k : String) (v : α) (m : List (String × α)) :
    mlookup k (minsert k v m) = some v := by
  induction m with
  | nil => simp [minsert, mlookup]
  | cons p t ih =>
    obtain ⟨k2, v2⟩ := p
    simp only [minsert]
    split_ifs with h1 h2
    · simp [mlookup]
    · subst h2
      simp [mlookup]
    · have h3 : ¬ k2 = k := fun hh => h2 hh.symm
      simp only [mlookup, if_neg h3]
      exact ih

theorem mlookup_minsert_ne {α : Type} (k q : String) (v : α) (m : List (String × α))
    (h : q ≠ k) : mlookup q (minsert k v m) = mlookup q m := by
  have hkq : ¬ k = q := fun hh => h hh.symm
  induction m with
  | nil => simp [minsert, mlookup, hkq]
  | cons p t ih =>
    obtain ⟨k2, v2⟩ := p
    simp only [minsert]
    split_ifs with h1 h2
    · simp only [mlookup, if_neg hkq]
    · subst h2
      simp only [mlookup, if_neg hkq]
    · simp only [mlookup]
      by_cases h4 : k2 = q
      · simp only [if_pos h4]
      · simp only [if_neg h4]
        exact ih

theorem mlookup_mremove_ne {κ α : Type} [DecidableEq κ] (k q : κ) (m : List (κ × α))
    (h : q ≠ k) : mlookup q (mremove k m) = mlookup q m := by
  induction m with
  | nil => rfl
  | cons p t ih =>
    obtain ⟨k2, v2⟩ := p
    simp only [mremove]
    by_cases h2 : k2 = k
    · simp only [if_pos h2, ih, mlookup]
      have h3 : ¬ k2 = q := fun hh => h (by rw [← hh, h2])
      simp [if_neg h3]
    · simp only [if_neg h2, mlookup]
      by_cases h4 : k2 = q
      · simp only [if_pos h4]
      · simp only [if_neg h4]
        exact ih

theorem mcontains_minsert_self {α : Type} (k : String) (v : α) (m : List (String × α)) :
    mcontains k (minsert k v m) = true := by
  simp [mcontains, mlookup_minsert_self]

theorem mcontains_minsert_ne {α : Type} (k q : String) (v : α) (m : List (String × α))
    (h : q ≠ k) : mcontains q (minsert k v m) = mcontains q m := by
  simp [mcontains, mlookup_minsert_ne _ _ _ _ h]

/-! Helper lemmas about the allocator. -/

theorem renameLoop_sound (used : List String) (base ext : String) (w : Nat) :
    ∀ fuel i n, renameLoop used base ext w fuel i = some n →
      used.contains n = false ∧ ∃ j, i < j ∧ n = base ++ padNum j w ++ ext := by
  intro fuel
  induction fuel with
  | zero => intro i n h; simp [renameLoop] at h
  | succ fuel ih =>
    intro i n h
    simp only [renameLoop] at h
    by_cases h1 : 99999 ≤ i
    · simp [h1] at h
    · simp only [if_neg h1] at h
      by_cases h2 : used.contains (base ++ padNum (i + 1) w ++ ext) = true
      · simp only [h2, if_true] at h
        obtain ⟨hc, j, hj, hn⟩ := ih (i + 1) n h
        exact ⟨hc, j, by omega, hn⟩
      · simp only [Bool.not_eq_true] at h2
        simp only [h2, Bool.false_eq_true, if_false, Option.some.injEq] at h
        exact ⟨h ▸ h2, i + 1, by omega, h.symm⟩

theorem renameToUnique_spec (name : String) (used : List String)
    (fmts : List FileFormat) (n : String) (u2 : List String)
    (h : renameToUnique name used fmts = some (n, u2)) :
    used.contains n = false ∧ u2 = used ++ [n] := by
  simp only [renameToUnique] at h
  by_cases h1 : used.contains (if name = "" then "copyq_0000" else sanitizeName name) = true
  · rw [if_pos h1] at h
    generalize hsp : splitNameForRename
        (if name = "" then "copyq_0000" else sanitizeName name) fmts = sp at h
    obtain ⟨base, ext, i0, w⟩ := sp
    cases hloop : renameLoop used base ext w 100000 i0 with
    | none => rw [hloop] at h; simp at h
    | some nn =>
      rw [hloop] at h
      simp only [Option.some.injEq, Prod.mk.injEq] at h
      obtain ⟨hn, hu⟩ := h
      subst hn
      exact ⟨(renameLoop_sound used base ext w 100000 i0 nn hloop).1, hu.symm⟩
  · rw [if_neg h1] at h
    have h1b : used.contains (if name = "" then "copyq_0000" else sanitizeName name) = false := by
      simpa using h1
    simp only [Option.some.injEq, Prod.mk.injEq] at h
    obtain ⟨hn, hu⟩ := h
    subst hn
    exact ⟨h1b, hu.symm⟩

theorem toDigitsCore_len_ge (b : Nat) :
    ∀ (fuel n : Nat) (ds : List Char), ds.length ≤ (Nat.toDigitsCore b fuel n ds).length := by
  intro fuel
  induction fuel with
  | zero => intro n ds; simp [Nat.toDigitsCore]
  | succ fuel ih =>
    intro n ds
    simp only [Nat.toDigitsCore]
    by_cases h : n / b = 0
    · simp [h]
    · simp only [h, if_false]
      calc ds.length ≤ (Nat.digitChar (n % b) :: ds).length := by simp
        _ ≤ _ := ih (n / b) (Nat.digitChar (n % b) :: ds)

theorem natToString_ne_empty (n : Nat) : (toString n).toList ≠ [] := by
  show (Nat.repr n).toList ≠ []
  simp only [Nat.repr, Nat.toDigits]
  intro hc
  have h1 : (1 : Nat) ≤ (Nat.toDigitsCore 10 (n + 1) n []).length := by
    simp only [Nat.toDigitsCore]
    by_cases h : n / 10 = 0
    · simp [h]
    · simp only [h, if_false]
      have := toDigitsCore_len_ge 10 n (n / 10) [Nat.digitChar (n % 10)]
      simpa using this
  rw [show ((Nat.toDigitsCore 10 (n + 1) n []).asString).toList
      = Nat.toDigitsCore 10 (n + 1) n [] from List.toList_asString _] at hc
  rw [hc] at h1
  simp at h1

theorem strAppend_toList (s t : String) : (s ++ t).toList = s.toList ++ t.toList := by
  simp [String.toList, String.data_append]

theorem padNum_toList_ne_empty (i w : Nat) : (padNum i w).toList ≠ [] := by
  simp only [padNum, strAppend_toList]
  intro hc
  rcases List.append_eq_nil.mp hc with ⟨_, h2⟩
  exact natToString_ne_empty i h2

theorem renameToUnique_nonempty (name : String) (used : List String)
    (fmts : List FileFormat) (n : String) (u2 : List String)
    (h : renameToUnique name used fmts = some (n, u2))
    (hname : name = "" ∨ sanitizeName name ≠ "") : n ≠ "" := by
  simp only [renameToUnique] at h
  by_cases h1 : used.contains (if name = "" then "copyq_0000" else sanitizeName name) = true
  · rw [if_pos h1] at h
    generalize hsp : splitNameForRename
        (if name = "" then "copyq_0000" else sanitizeName name) fmts = sp at h
    obtain ⟨base, ext, i0, w⟩ := sp
    cases hloop : renameLoop used base ext w 100000 i0 with
    | none => rw [hloop] at h; simp at h
    | some nn =>
      rw [hloop] at h
      simp only [Option.some.injEq, Prod.mk.injEq] at h
      obtain ⟨hn, _⟩ := h
      subst hn
      obtain ⟨j, _, hform⟩ := (renameLoop_sound used base ext w 100000 i0 nn hloop).2
      rw [hform]
      intro hcontr
      have hlist : (base ++ padNum j w ++ ext).toList = [] := by rw [hcontr]; rfl
      rw [strAppend_toList, strAppend_toList] at hlist
      rcases List.append_eq_nil.mp hlist with ⟨h3, _⟩
      rcases List.append_eq_nil.mp h3 with ⟨_, h5⟩
      exact padNum_toList_ne_empty j w h5
  · rw [if_neg h1] at h
    simp only [Option.some.injEq, Prod.mk.injEq] at h
    obtain ⟨hn, _⟩ := h
    subst hn
    by_cases h2 : name = ""
    · simp [h2]
    · rcases hname with h3 | h3
      · exact absurd h3 h2
      · simpa [h2] using h3

/-! Claim theorems. -/

/-- C1 (code bug witness): for the tab that holds one item whose only MIME
(`application/x-custom`) has no registered extension, a full direction-W
pass succeeds and persists the payload solely to the
`<base>_copyq.dat` sidecar — yet a subsequent direction-R pass removes the
item from the model, and a fresh scan of the directory yields no buckets at
all, because the scanner maps the `_copyq.dat` suffix to the empty format
and skips the file.  The claim's round trip (and in particular the recovery
of a sidecar-only item) fails on the code. -/
theorem c1_sidecar_item_lost :
    c1AfterW.2 = true
    ∧ c1AfterW.1.fs.map DiskFile.path = ["/tab/copyq_0000_copyq.dat"]
    ∧ c1AfterW.1.items.map (mlookup "application/x-custom")
        = [some (Variant.bytes [1, 2, 3])]
    ∧ (FileWatcher.updateItems [] 100 "/tab" c1AfterW.1).items = []
    ∧ listFiles [⟨"/tab/copyq_0000_copyq.dat", false, true⟩] [] = [] :=
  ⟨by decide, by decide, by decide, by decide, by decide⟩

/-- C4 counterexample: a located watcher whose path is empty (and which is
even invalid) makes ItemSyncLoader::saveItems return success and write a
manifest with an empty saved-files list, where the claim demands failure. -/
theorem c4_empty_path_returns_success :
    ItemSyncLoader.saveItems (some ⟨"", false⟩) [] = some (writeConfiguration [])
    ∧ (ItemSyncLoader.saveItems (some ⟨"", false⟩) []).isSome = true :=
  ⟨by decide, by decide⟩

/-- C4 (amended): the save-tab operation fails exactly when there is no
watcher for the model, or the watcher's path is nonempty and the watcher is
invalid; with an empty path it succeeds writing an empty-file-list
manifest, and otherwise it succeeds writing the gathered file list. -/
theorem c4_save_failure_characterisation (w : Option Watcher) (items : List VMap) :
    (ItemSyncLoader.saveItems w items = none
      ↔ w = none ∨ ∃ wa, w = some wa ∧ wa.path ≠ "" ∧ wa.valid = false)
    ∧ (∀ wa, w = some wa → wa.path = "" →
        ItemSyncLoader.saveItems w items = some (writeConfiguration []))
    ∧ (∀ wa, w = some wa → wa.path ≠ "" → wa.valid = true →
        ItemSyncLoader.saveItems w items
          = some (writeConfiguration (savedFilesOf wa.path items))) := by
  refine ⟨?_, ?_, ?_⟩
  · cases w with
    | none => simp [ItemSyncLoader.saveItems]
    | some wa =>
      by_cases hp : wa.path = ""
      · simp [ItemSyncLoader.saveItems, hp]
      · cases hv : wa.valid with
        | false => simp [ItemSyncLoader.saveItems, hp, hv]
        | true => simp [ItemSyncLoader.saveItems, hp, hv]
  · intro wa hw hp
    subst hw
    simp [ItemSyncLoader.saveItems, hp]
  · intro wa hw hp hv
    subst hw
    simp [ItemSyncLoader.saveItems, hp, hv]

/-- C4 witness: the characterisation applied to a concrete valid watcher. -/
theorem c4_save_failure_witness :
    ItemSyncLoader.saveItems (some ⟨"/t", true⟩) [] = some (writeConfiguration (savedFilesOf "/t" [])) :=
  (c4_save_failure_characterisation (some ⟨"/t", true⟩) []).2.2 ⟨"/t", true⟩ rfl
    (by decide) rfl

/-- C7: reading the per-tab manifest succeeds exactly when the decoded
header equals "CopyQ_itemsync_tab" and the decoded map's version value is
1; and a manifest produced by writeConfiguration always reads back
successfully. -/
theorem c7_manifest_header_version (header : String) (config : VMap) :
    (readConfig header config = true
      ↔ header = dataFileHeader
        ∧ (mvalue config configVersion (Variant.int 0)).toInt = currentVersion)
    ∧ ∀ files, readConfig (writeConfiguration files).1 (writeConfiguration files).2 = true := by
  constructor
  · simp [readConfig, readConfigHeader]
  · intro files
    have h1 : mlookup configVersion
        (minsert tabConfigSavedFiles (Variant.strlist files)
          (minsert configVersion (Variant.int currentVersion) [])) 
        = some (Variant.int currentVersion) := by
      rw [mlookup_minsert_ne _ _ _ _ (by decide), mlookup_minsert_self]
    simp [readConfig, readConfigHeader, writeConfiguration, mvalue, h1, Variant.toInt]

/-- C5: during a direction-W pass, saveItemFile skips the write (leaving
the directory, hence the file's content and modification time, unchanged,
and removing the (hash, path) entry from the multimap) exactly when the
payload's hash together with the target path occurs in the multimap of
existing files; otherwise it truncates and fully writes the file,
reporting failure (which aborts the batch) on an I/O error. -/
theorem c5_hash_write_elision (ioFail : String → Bool) (fs : FS) (p : String)
    (b : Bytes) (ex : HMap) :
    ((hmValues (calculateHash b) ex).contains p = true →
        saveItemFile ioFail fs p b ex
          = ⟨fs, hmRemove (calculateHash b) p ex, true, false⟩)
    ∧ ((hmValues (calculateHash b) ex).contains p = false →
        (saveItemFile ioFail fs p b ex).wrote = true
        ∧ (ioFail p = false →
            saveItemFile ioFail fs p b ex = ⟨fsWrite fs p b, ex, true, true⟩)
        ∧ (ioFail p = true → (saveItemFile ioFail fs p b ex).ok = false)) := by
  constructor
  · intro h
    have h2 : p ∈ hmValues (calculateHash b) ex := by simpa using h
    simp [saveItemFile, h2]
  · intro h
    have h2 : p ∉ hmValues (calculateHash b) ex := by simpa using h
    refine ⟨?_, ?_, ?_⟩
    · by_cases hio : ioFail p = true <;> simp [saveItemFile, h2, hio]
    · intro hio
      simp [saveItemFile, h2, hio]
    · intro hio
      simp [saveItemFile, h2, hio]

/-- C5 witness: elision at a concrete multimap that records the payload's
hash for the target path. -/
theorem c5_hash_write_elision_witness :
    saveItemFile (fun _ => false) [] "/t/a.txt" [1] [(calculateHash [1], "/t/a.txt")]
      = ⟨[], hmRemove (calculateHash [1]) "/t/a.txt" [(calculateHash [1], "/t/a.txt")], true, false⟩ :=
  (c5_hash_write_elision (fun _ => false) [] "/t/a.txt" [1]
    [(calculateHash [1], "/t/a.txt")]).1 (by decide)

/-- C6: the allocator's disambiguation.  The two boundary examples of the
claim hold verbatim; in general a successful allocation never returns a
name from the used set (and appends the fresh name to it); and whenever the
sanitised proposal collides with a used name, the result is the split base
with the counter advanced past its parsed value at the recorded zero-pad
field width, with the split extension preserved. -/
theorem c6_allocator_disambiguation :
    renameToUnique "foo001.txt" ["foo001.txt"] []
      = some ("foo002.txt", ["foo001.txt", "foo002.txt"])
    ∧ renameToUnique "foo.txt" ["foo.txt"] []
      = some ("foo-1.txt", ["foo.txt", "foo-1.txt"])
    ∧ (∀ name used fmts n u2, renameToUnique name used fmts = some (n, u2) →
        used.contains n = false ∧ u2 = used ++ [n])
    ∧ (∀ name used fmts n u2,
        renameToUnique name used fmts = some (n, u2) →
        used.contains (if name = "" then "copyq_0000" else sanitizeName name) = true →
        ∃ j, (splitNameForRename (if name = "" then "copyq_0000" else sanitizeName name) fmts).2.2.1 < j
          ∧ n = (splitNameForRename (if name = "" then "copyq_0000" else sanitizeName name) fmts).1
              ++ padNum j (splitNameForRename (if name = "" then "copyq_0000" else sanitizeName name) fmts).2.2.2
              ++ (splitNameForRename (if name = "" then "copyq_0000" else sanitizeName name) fmts).2.1) := by
  refine ⟨by decide, by decide, renameToUnique_spec, ?_⟩
  intro name used fmts n u2 h hcont
  simp only [renameToUnique] at h
  rw [if_pos hcont] at h
  cases hloop : renameLoop used
      (splitNameForRename (if name = "" then "copyq_0000" else sanitizeName name) fmts).1
      (splitNameForRename (if name = "" then "copyq_0000" else sanitizeName name) fmts).2.1
      (splitNameForRename (if name = "" then "copyq_0000" else sanitizeName name) fmts).2.2.2
      100000
      (splitNameForRename (if name = "" then "copyq_0000" else sanitizeName name) fmts).2.2.1 with
  | none => rw [hloop] at h; simp at h
  | some nn =>
    rw [hloop] at h
    simp only [Option.some.injEq, Prod.mk.injEq] at h
    obtain ⟨hn, _⟩ := h
    subst hn
    obtain ⟨j, hj, hform⟩ := (renameLoop_sound used _ _ _ 100000 _ nn hloop).2
    exact ⟨j, hj, hform⟩

/-- C6 witness: the freshness conjunct applied to the second boundary
example. -/
theorem c6_allocator_witness :
    (["foo.txt"] : List String).contains "foo-1.txt" = false
    ∧ (["foo.txt", "foo-1.txt"] : List String) = ["foo.txt"] ++ ["foo-1.txt"] :=
  c6_allocator_disambiguation.2.2.1 "foo.txt" ["foo.txt"] [] "foo-1.txt"
    ["foo.txt", "foo-1.txt"] (by decide)

/-- The scanner skips a file whose first matching user extension carries
the ignore mime "-" (lines 360-361). -/
theorem resolveExt_user_dash (path : String) (userExts builtins : List Ext)
    (hext : (findByExtension path userExts).extension ≠ "")
    (hdash : (findByExtension path userExts).format = "-") :
    resolveExt path userExts builtins = none := by
  simp only [resolveExt]
  rw [if_neg hext, if_pos hdash]

theorem scanStep_skip_of_resolve_none (userExts builtins : List Ext)
    (acc : List BaseNameExtensions) (f : FileInfo)
    (hres : resolveExt f.path userExts builtins = none) :
    scanStep userExts builtins acc f = acc := by
  simp [scanStep, hres]

theorem listFiles_middle_skip (fmts : List FileFormat) (l1 l2 : List FileInfo)
    (f : FileInfo)
    (hstep : ∀ acc, scanStep (userExtsOf fmts) fileExtensionsAndFormats acc f = acc) :
    listFiles (l1 ++ f :: l2) fmts = listFiles (l1 ++ l2) fmts := by
  simp only [listFiles, List.foldl_append, List.foldl_cons, hstep]

/-- C8: a file whose resolved user extension has the configured MIME "-"
contributes nothing to the bucket scan — removing it from the scanned list
leaves the buckets unchanged — and therefore never produces an item. -/
theorem c8_dash_mime_never_item (fmts : List FileFormat) (l1 l2 : List FileInfo)
    (f : FileInfo)
    (hext : (findByExtension f.path (userExtsOf fmts)).extension ≠ "")
    (hdash : (findByExtension f.path (userExtsOf fmts)).format = "-") :
    listFiles (l1 ++ f :: l2) fmts = listFiles (l1 ++ l2) fmts
    ∧ ∀ dirPath fs maxItems items,
        FileWatcher.createItemsFromFiles dirPath fs maxItems (listFiles (l1 ++ f :: l2) fmts) items
          = FileWatcher.createItemsFromFiles dirPath fs maxItems (listFiles (l1 ++ l2) fmts) items := by
  have heq := listFiles_middle_skip fmts l1 l2 f
    (fun acc => scanStep_skip_of_resolve_none _ _ acc f
      (resolveExt_user_dash f.path _ _ hext hdash))
  exact ⟨heq, fun dirPath fs maxItems items => by rw [heq]⟩

/-- C8 witness: a .txt file under a user format registering ".txt" with
MIME "-" is skipped by the scanner. -/
theorem c8_dash_mime_witness :
    listFiles ([] ++ ⟨"/t/a.txt", false, true⟩ :: []) [⟨[".txt"], "-", ""⟩]
      = listFiles ([] ++ []) [⟨[".txt"], "-", ""⟩] :=
  (c8_dash_mime_never_item [⟨[".txt"], "-", ""⟩] [] [] ⟨"/t/a.txt", false, true⟩
    (by decide) (by decide)).1

theorem hmValues_contains_mem (h : Bytes) (p : String) (m : HMap)
    (hc : (hmValues h m).contains p = true) : (h, p) ∈ m := by
  have hmem : p ∈ hmValues h m := by simpa using hc
  simp only [hmValues] at hmem
  obtain ⟨x, hx, hxp⟩ := List.mem_map.mp hmem
  have hf := List.mem_filter.mp hx
  have hx1 : x.1 = h := by simpa using hf.2
  have hxe : x = (h, p) := by
    cases x
    simp_all
  rw [← hxe]
  exact hf.1

/-- C9: the hash multimap records the empty byte string for files above
the 10 MiB limit, while the hash computed for any payload being saved is
never empty, so a write targeting a path recorded only under the empty
hash is never elided — saveItemFile always performs the write. -/
theorem c9_oversized_never_elided (ioFail : String → Bool) (fs fs2 : FS) (ex : HMap)
    (p : String) (b : Bytes) (content : Bytes)
    (hbig : sizeLimit < content.length)
    (hex : ∀ h, (h, p) ∈ ex → h = []) :
    calculateHashFile content = []
    ∧ calculateHash b ≠ []
    ∧ (saveItemFile ioFail fs2 p b ex).wrote = true
    ∧ (∀ df : DiskFile, df ∈ fs → df.readable = true → df.hidden = false →
        sizeLimit < df.content.length → (([] : Bytes), df.path) ∈ listFilesDir fs) := by
  refine ⟨by simp [calculateHashFile, hbig], by simp [calculateHash], ?_, ?_⟩
  · have hc : p ∉ hmValues (calculateHash b) ex := by
      intro hcc
      have hmm : (calculateHash b, p) ∈ ex :=
        hmValues_contains_mem _ _ _ (by simpa using hcc)
      have := hex _ hmm
      simp [calculateHash] at this
    by_cases hio : ioFail p = true <;> simp [saveItemFile, hc, hio]
  · intro df hdf hr hh hb
    simp only [listFilesDir]
    refine List.mem_map.mpr ⟨df, List.mem_filter.mpr ⟨hdf, by simp [hr, hh]⟩, ?_⟩
    simp [calculateHashFile, hb]

/-- C9 witness: a file one byte over the limit hashes to the empty string,
and a save targeting its path is not elided. -/
theorem c9_oversized_witness :
    calculateHashFile bigContent = []
    ∧ (saveItemFile (fun _ => false) [] "/t/big.txt" [1] [([], "/t/big.txt")]).wrote = true := by
  have h := c9_oversized_never_elided (fun _ => false) [] [] [([], "/t/big.txt")]
    "/t/big.txt" [1] bigContent (by rw [bigContent_length]; decide)
    (by intro h2 hm; simp at hm; exact hm)
  exact ⟨h.1, h.2.2.1⟩

theorem scanStep_skip_hidden (userExts builtins : List Ext)
    (acc : List BaseNameExtensions) (f : FileInfo)
    (h : f.hidden = true ∨ strStartsWith (fileNameOf f.path) "." = true) :
    scanStep userExts builtins acc f = acc := by
  rcases h with h | h <;> simp [scanStep, h]

/-- Hydration of a bucket whose single file is over the size limit: no
payload is read and the extension map holds only the presence marker. -/
theorem updateData_oversized (dirPath : String) (fs : FS) (base : String) (e : Ext)
    (df : DiskFile)
    (hfind : fsFind fs (dirPath ++ "/" ++ base ++ Ext.extension e) = some df)
    (hread : df.readable = true)
    (hsuffix : strEndsWith (dirPath ++ "/" ++ base ++ Ext.extension e) dataFileSuffix = false)
    (hbig : sizeLimit < df.content.length) :
    FileWatcher.updateDataAndWatchFile dirPath fs ⟨base, [e]⟩ = ([], [("", "")]) := by
  simp only [FileWatcher.updateDataAndWatchFile, List.foldl_cons, List.foldl_nil]
  rw [hfind]
  simp [hread, hsuffix, hbig, minsert]

/-- C2 counterexample: the file `/tab/big.txt`, one byte above the 10 MiB
limit, is included in the bucket scan (the scanner never consults the
size) and becomes an item — a presence-marker row with base name "big" —
contradicting "excluded from the bucket scan ... never become items". -/
theorem c2_oversized_becomes_item :
    listFiles [⟨"/tab/big.txt", false, true⟩] [] = [c2Bucket]
    ∧ FileWatcher.createItemsFromFiles "/tab" [c2File] 100 [c2Bucket] []
        = [[(mimeBaseName, Variant.str "big"), (mimeExtensionMap, Variant.smap [("", "")])]] := by
  constructor
  · decide
  · have h2 : FileWatcher.updateDataAndWatchFile "/tab" [c2File] c2Bucket = ([], [("", "")]) := by
      refine updateData_oversized "/tab" [c2File] "big" ⟨".txt", mimeText⟩ c2File rfl rfl
        (by decide) ?_
      have hc : c2File.content = bigContent := rfl
      rw [hc, bigContent_length]
      decide
    simp only [FileWatcher.createItemsFromFiles, h2]
    decide

/-- C2 (amended): hidden (dot-prefixed) files are excluded from the bucket
scan and never become items; files exceeding the 10 MiB limit are not
excluded from the scan — a recognised oversized file is bucketed normally
and hydrates to a presence-marker item with no payload read. -/
theorem c2_hidden_excluded_oversized_marker (fmts : List FileFormat)
    (l1 l2 : List FileInfo) (f : FileInfo)
    (hhid : f.hidden = true ∨ strStartsWith (fileNameOf f.path) "." = true) :
    (listFiles (l1 ++ f :: l2) fmts = listFiles (l1 ++ l2) fmts)
    ∧ (∀ dirPath fs maxItems items,
        FileWatcher.createItemsFromFiles dirPath fs maxItems (listFiles (l1 ++ f :: l2) fmts) items
          = FileWatcher.createItemsFromFiles dirPath fs maxItems (listFiles (l1 ++ l2) fmts) items)
    ∧ (∀ dirPath fs base e df,
        fsFind fs (dirPath ++ "/" ++ base ++ Ext.extension e) = some df →
        df.readable = true →
        strEndsWith (dirPath ++ "/" ++ base ++ Ext.extension e) dataFileSuffix = false →
        sizeLimit < df.content.length →
        FileWatcher.updateDataAndWatchFile dirPath fs ⟨base, [e]⟩ = ([], [("", "")])) := by
  have heq := listFiles_middle_skip fmts l1 l2 f
    (fun acc => scanStep_skip_hidden _ _ acc f hhid)
  exact ⟨heq, fun dirPath fs maxItems items => by rw [heq],
    fun dirPath fs base e df h1 h2 h3 h4 => updateData_oversized dirPath fs base e df h1 h2 h3 h4⟩

/-- C2 witness: a dot-prefixed file is skipped by the scanner, and the
oversized `/tab/big.txt` hydrates to the bare presence marker. -/
theorem c2_hidden_oversized_witness :
    listFiles ([] ++ ⟨"/t/.x", false, true⟩ :: []) [] = listFiles ([] ++ []) []
    ∧ FileWatcher.updateDataAndWatchFile "/tab" [c2File] ⟨"big", [⟨".txt", mimeText⟩]⟩
        = ([], [("", "")]) := by
  have h := c2_hidden_excluded_oversized_marker [] [] []
    ⟨"/t/.x", false, true⟩ (Or.inr (by decide))
  refine ⟨h.1, h.2.2 "/tab" [c2File] "big" ⟨".txt", mimeText⟩ c2File rfl rfl (by decide) ?_⟩
  have hc : c2File.content = bigContent := rfl
  rw [hc, bigContent_length]
  decide

theorem not_mem_of_contains_false (l : List String) (a : String)
    (h : l.contains a = false) : a ∉ l := by
  intro hm
  have h2 := List.elem_eq_true_of_mem hm
  rw [show l.contains a = l.elem a from rfl, h2] at h
  cases h

theorem getBaseNameV_minsert (bn : String) (m : VMap) :
    getBaseNameV (minsert mimeBaseName (Variant.str bn) m) = bn := by
  simp [getBaseNameV, mvalue, mlookup_minsert_self, Variant.toStr]

theorem getBaseNameV_eq_of_lookup (m1 m2 : VMap)
    (h : mlookup mimeBaseName m1 = mlookup mimeBaseName m2) :
    getBaseNameV m1 = getBaseNameV m2 := by
  simp [getBaseNameV, mvalue, h]

/-- The rename step always leaves the row with the allocator's name: either
the row data is rewritten with it, or the branch was not taken because the
name did not change. -/
theorem renameRowStep_basename (fmts : List FileFormat) (path : String) (item : VMap)
    (row : Nat) (i2b : List (Nat × String)) (fs : FS) (bn : String) :
    getBaseNameV (FileWatcher.renameRowStep fmts path item row i2b fs bn).1 = bn := by
  simp only [FileWatcher.renameRowStep]
  by_cases h : ((mvalue item mimeSyncPath (Variant.str "")).toStr ≠ ""
      ∧ (mvalue item mimeSyncPath (Variant.str "")).toStr ≠ path) ∨ bn ≠ getBaseNameV item
  · rw [if_pos h]
    exact getBaseNameV_minsert bn _
  · rw [if_neg h]
    have hbn : bn = getBaseNameV item := by
      by_contra hc
      exact h (Or.inr hc)
    exact hbn.symm

/-- Invariants of the rename loop: on success, the final used-name list is
the initial one extended by exactly the new base names in row order; it
stays duplicate-free; and every renamed row has a nonempty base name
provided its old name was empty or did not sanitise to the empty string. -/
theorem renameRows_spec (fmts : List FileFormat) (path : String) :
    ∀ (slice : List VMap) (row : Nat) (i2b : List (Nat × String)) (used : List String)
      (fs : FS) (slice2 : List VMap) (i2b2 : List (Nat × String)) (used2 : List String)
      (fs2 : FS),
      FileWatcher.renameRows fmts path slice row i2b used fs = (slice2, i2b2, used2, fs2, true) →
      used2 = used ++ slice2.map getBaseNameV
      ∧ (used.Nodup → used2.Nodup)
      ∧ ((∀ item ∈ slice, getBaseNameV item = "" ∨ sanitizeName (getBaseNameV item) ≠ "") →
          ∀ nm ∈ slice2.map getBaseNameV, nm ≠ "") := by
  intro slice
  induction slice with
  | nil =>
    intro row i2b used fs slice2 i2b2 used2 fs2 heq
    simp only [FileWatcher.renameRows, Prod.mk.injEq] at heq
    obtain ⟨h1, _, h3, _, _⟩ := heq
    subst h1
    subst h3
    exact ⟨by simp, fun h => by simpa using h, by simp⟩
  | cons item rest ih =>
    intro row i2b used fs slice2 i2b2 used2 fs2 heq
    simp only [FileWatcher.renameRows] at heq
    cases halloc : renameToUnique (getBaseNameV item) used fmts with
    | none =>
      rw [halloc] at heq
      simp only [Prod.mk.injEq] at heq
      exact absurd heq.2.2.2.2 (by simp)
    | some pr =>
      obtain ⟨bn, usedA⟩ := pr
      rw [halloc] at heq
      obtain ⟨hfresh, husedA⟩ := renameToUnique_spec _ _ _ _ _ halloc
      subst husedA
      have hbnotmem : bn ∉ used := not_mem_of_contains_false used bn hfresh
      have hnodupA : used.Nodup → (used ++ [bn]).Nodup := fun hnd =>
        List.Nodup.append hnd (List.nodup_singleton bn)
          (by intro x hx hx2
              rw [List.mem_singleton] at hx2
              subst hx2
              exact hbnotmem hx)
      simp only [Prod.mk.injEq] at heq
      obtain ⟨hs, _, hu, _, hok⟩ := heq
      subst hs
      subst hu
      have hcall : FileWatcher.renameRows fmts path rest (row + 1)
          (FileWatcher.renameRowStep fmts path item row i2b fs bn).2.1 (used ++ [bn])
          (FileWatcher.renameRowStep fmts path item row i2b fs bn).2.2
          = ((FileWatcher.renameRows fmts path rest (row + 1)
              (FileWatcher.renameRowStep fmts path item row i2b fs bn).2.1 (used ++ [bn])
              (FileWatcher.renameRowStep fmts path item row i2b fs bn).2.2).1,
             (FileWatcher.renameRows fmts path rest (row + 1)
              (FileWatcher.renameRowStep fmts path item row i2b fs bn).2.1 (used ++ [bn])
              (FileWatcher.renameRowStep fmts path item row i2b fs bn).2.2).2.1,
             (FileWatcher.renameRows fmts path rest (row + 1)
              (FileWatcher.renameRowStep fmts path item row i2b fs bn).2.1 (used ++ [bn])
              (FileWatcher.renameRowStep fmts path item row i2b fs bn).2.2).2.2.1,
             (FileWatcher.renameRows fmts path rest (row + 1)
              (FileWatcher.renameRowStep fmts path item row i2b fs bn).2.1 (used ++ [bn])
              (FileWatcher.renameRowStep fmts path item row i2b fs bn).2.2).2.2.2.1,
             true) := by
        rw [← hok]
      obtain ⟨ihu, ihn, ihne⟩ := ih _ _ _ _ _ _ _ _ hcall
      refine ⟨?_, ?_, ?_⟩
      · rw [ihu]
        simp [renameRowStep_basename]
      · intro hnd
        exact ihn (hnodupA hnd)
      · intro hin nm hnm
        simp only [List.map_cons, renameRowStep_basename, List.mem_cons] at hnm
        rcases hnm with hnm | hnm
        · subst hnm
          exact renameToUnique_nonempty _ _ _ _ _ halloc (hin item (by simp))
        · exact ihne (fun it hit => hin it (by simp [hit])) nm hnm

/-- The per-format save loop never changes the basename entry of the item
data (it only removes non-internal keys). -/
theorem processFormats_lookup_basename (ioFail : String → Bool) (filePath : String)
    (noSaveData : List (String × Bytes)) (oldM2E : List (String × String)) :
    ∀ (ks : List String) (itemData : VMap) (m2e : List (String × String))
      (unknown : List (String × Bytes)) (fs : FS) (ex : HMap)
      (out : VMap × List (String × String) × List (String × Bytes) × FS × HMap),
      FileWatcher.processFormats ioFail filePath noSaveData oldM2E ks itemData m2e unknown fs ex
        = some out →
      mlookup mimeBaseName out.1 = mlookup mimeBaseName itemData := by
  intro ks
  induction ks with
  | nil =>
    intro itemData m2e unknown fs ex out heq
    simp only [FileWatcher.processFormats, Option.some.injEq] at heq
    rw [← heq]
  | cons k rest ih =>
    intro itemData m2e unknown fs ex out heq
    simp only [FileWatcher.processFormats] at heq
    split at heq
    · exact ih _ _ _ _ _ _ heq
    · rename_i h1
      split at heq
      · have hkb : mimeBaseName ≠ k := fun hh => by
          subst hh
          exact h1 (by decide)
        rw [ih _ _ _ _ _ _ heq, mlookup_mremove_ne _ _ _ hkb]
      · split at heq
        · exact ih _ _ _ _ _ _ heq
        · split at heq
          · exact ih _ _ _ _ _ _ heq
          · exact absurd heq (by simp)

theorem saveRowFinish_basename (filePath : String) (item itemData : VMap)
    (oldM2E : List (String × String)) (noSaveData : List (String × Bytes))
    (m2e : List (String × String)) (fs3 : FS) (ex3 : HMap)
    (hbase : mlookup mimeBaseName itemData = mlookup mimeBaseName item) :
    getBaseNameV (FileWatcher.saveRowFinish filePath item itemData oldM2E noSaveData m2e fs3 ex3).1
      = getBaseNameV item := by
  simp only [FileWatcher.saveRowFinish]
  split_ifs with h
  · refine getBaseNameV_eq_of_lookup _ _ ?_
    rw [mlookup_minsert_ne _ _ _ _ (by decide), mlookup_mremove_ne _ _ _ (by decide)]
    exact hbase
  · rfl

/-- The write phase of a row keeps its basename. -/
theorem saveRow_basename (ioFail : String → Bool) (dirPath : String)
    (item : VMap) (fs : FS) (ex : HMap) (out : VMap × FS × HMap × Bool)
    (heq : FileWatcher.saveRow ioFail dirPath item fs ex = some out) :
    getBaseNameV out.1 = getBaseNameV item := by
  simp only [FileWatcher.saveRow] at heq
  cases hres : FileWatcher.processFormats ioFail (dirPath ++ "/" ++ getBaseNameV item)
      ((mvalue item mimeNoSave (Variant.bmap [])).toBMap)
      ((mvalue item mimeExtensionMap (Variant.smap [])).toSMap)
      (mkeys item) item [] [] fs ex with
  | none =>
    rw [hres] at heq
    simp at heq
  | some res =>
    obtain ⟨itemData, m2e0, unknown, fs2, ex2⟩ := res
    rw [hres] at heq
    have hbase : mlookup mimeBaseName itemData = mlookup mimeBaseName item :=
      processFormats_lookup_basename _ _ _ _ _ _ _ _ _ _ _ hres
    simp only [Option.some.injEq] at heq
    by_cases hunk : unknown.isEmpty = true
    · rw [if_pos hunk] at heq
      simp only [Option.some.injEq] at heq
      rw [← heq]
      exact saveRowFinish_basename _ _ _ _ _ _ _ _ hbase
    · rw [if_neg hunk] at heq
      by_cases hok2 : (saveItemFile ioFail fs2
          ((dirPath ++ "/" ++ getBaseNameV item) ++ dataFileSuffix)
          (serializeData unknown) ex2).ok = true
      · rw [if_pos hok2] at heq
        simp only [Option.some.injEq] at heq
        rw [← heq]
        exact saveRowFinish_basename _ _ _ _ _ _ _ _ hbase
      · rw [if_neg hok2] at heq
        simp at heq

/-- The row loop of the write phase keeps every row's basename. -/
theorem saveRowsLoop_names (ioFail : String → Bool) (dirPath : String) :
    ∀ (slice : List VMap) (row : Nat) (i2b : List (Nat × String)) (fs : FS) (ex : HMap)
      (s2 : List VMap) (j2 : List (Nat × String)) (f2 : FS),
      FileWatcher.saveRowsLoop ioFail dirPath slice row i2b fs ex = (s2, j2, f2, true) →
      s2.map getBaseNameV = slice.map getBaseNameV := by
  intro slice
  induction slice with
  | nil =>
    intro row i2b fs ex s2 j2 f2 heq
    simp only [FileWatcher.saveRowsLoop, Prod.mk.injEq] at heq
    obtain ⟨h1, _, _, _⟩ := heq
    subst h1
    simp
  | cons item rest ih =>
    intro row i2b fs ex s2 j2 f2 heq
    simp only [FileWatcher.saveRowsLoop] at heq
    cases hpr : FileWatcher.saveRow ioFail dirPath item fs ex with
    | none =>
      rw [hpr] at heq
      simp only [Prod.mk.injEq] at heq
      exact absurd heq.2.2.2 (by simp)
    | some pr =>
      obtain ⟨item2, fs2, ex2, updated⟩ := pr
      rw [hpr] at heq
      simp only [Prod.mk.injEq] at heq
      generalize hI : (if updated = true then minsertNat row (getBaseNameV item) i2b else i2b)
        = I at heq
      obtain ⟨hs, _, _, hok⟩ := heq
      subst hs
      have hcall : FileWatcher.saveRowsLoop ioFail dirPath rest (row + 1) I fs2 ex2
          = ((FileWatcher.saveRowsLoop ioFail dirPath rest (row + 1) I fs2 ex2).1,
             (FileWatcher.saveRowsLoop ioFail dirPath rest (row + 1) I fs2 ex2).2.1,
             (FileWatcher.saveRowsLoop ioFail dirPath rest (row + 1) I fs2 ex2).2.2.1,
             true) := by
        rw [← hok]
      simp only [List.map_cons]
      rw [saveRow_basename _ _ _ _ _ _ hpr, ih _ _ _ _ _ _ _ hcall]

/-- C3 counterexample: a completed direction-W pass over a row whose prior
basename consists solely of CR and LF leaves the row with an empty
sys:basename — the sanitiser strips the name to "" and the allocator
accepts it — refuting the nonemptiness part of the claim. -/
theorem c3_crlf_empty_basename :
    (FileWatcher.saveItems [] "/t" (fun _ => false)
        ⟨[[(mimeBaseName, Variant.str "\r\n")]], [], []⟩ 0 0).2 = true
    ∧ ((FileWatcher.saveItems [] "/t" (fun _ => false)
        ⟨[[(mimeBaseName, Variant.str "\r\n")]], [], []⟩ 0 0).1.items).map getBaseNameV
      = [""] :=
  ⟨by decide, by decide⟩

/-- C3 (amended): after a direction-W pass completes successfully, no two
rows of the tab share a sys:basename (assuming the rows outside the saved
range were pairwise distinct, as in any quiescent state), and every row's
basename is nonempty — provided each saved row's prior basename was empty
or did not consist solely of CR/LF characters (such a name sanitises to
the empty string, which the allocator accepts). -/
theorem c3_basenames_unique (fmts : List FileFormat) (path : String)
    (ioFail : String → Bool) (st : WState) (first last : Nat)
    (hnodup : ((st.items.take first).map getBaseNameV
        ++ (st.items.drop (last + 1)).map getBaseNameV).Nodup)
    (hne : ∀ item ∈ st.items.take first ++ st.items.drop (last + 1), getBaseNameV item ≠ "")
    (hslice : ∀ item ∈ (st.items.drop first).take (last + 1 - first),
        getBaseNameV item = "" ∨ sanitizeName (getBaseNameV item) ≠ "")
    (hok : (FileWatcher.saveItems fmts path ioFail st first last).2 = true) :
    (((FileWatcher.saveItems fmts path ioFail st first last).1.items).map getBaseNameV).Nodup
    ∧ ∀ item ∈ (FileWatcher.saveItems fmts path ioFail st first last).1.items,
        getBaseNameV item ≠ "" := by
  simp only [FileWatcher.saveItems] at hok ⊢
  set R := FileWatcher.renameRows fmts path ((st.items.drop first).take (last + 1 - first))
      first st.indexToBaseName
      ((st.items.take first).map getBaseNameV ++ (st.items.drop (last + 1)).map getBaseNameV)
      st.fs with hR
  cases hrb : R.2.2.2.2 with
  | false =>
    simp [hrb] at hok
  | true =>
    simp only [hrb, Bool.not_true, Bool.false_eq_true, if_false] at hok ⊢
    by_cases hpath : path = ""
    · rw [if_pos hpath] at hok
      simp at hok
    · rw [if_neg hpath] at hok ⊢
      have hcall : FileWatcher.renameRows fmts path
          ((st.items.drop first).take (last + 1 - first)) first st.indexToBaseName
          ((st.items.take first).map getBaseNameV ++ (st.items.drop (last + 1)).map getBaseNameV)
          st.fs
          = (R.1, R.2.1, R.2.2.1, R.2.2.2.1, true) := by
        rw [← hR, ← hrb]
      obtain ⟨hu, hnd2, hne2⟩ := renameRows_spec fmts path _ _ _ _ _ _ _ _ _ hcall
      set W := FileWatcher.saveRowsLoop ioFail path R.1 first R.2.1 R.2.2.2.1
        (listFilesDir R.2.2.2.1) with hW
      cases hwb : W.2.2.2 with
      | false =>
        simp [hwb] at hok
      | true =>
        have hwcall : FileWatcher.saveRowsLoop ioFail path R.1 first R.2.1 R.2.2.2.1
            (listFilesDir R.2.2.2.1) = (W.1, W.2.1, W.2.2.1, true) := by
          rw [← hW, ← hwb]
        have hnames : W.1.map getBaseNameV = R.1.map getBaseNameV :=
          saveRowsLoop_names ioFail path _ _ _ _ _ _ _ _ hwcall
        have hndR : R.2.2.1.Nodup := hnd2 hnodup
        rw [hu] at hndR
        constructor
        · simp only [List.map_append, hnames]
          have hperm : (((st.items.take first).map getBaseNameV
                ++ (st.items.drop (last + 1)).map getBaseNameV)
                ++ R.1.map getBaseNameV).Perm
              (((st.items.take first).map getBaseNameV ++ R.1.map getBaseNameV)
                ++ (st.items.drop (last + 1)).map getBaseNameV) := by
            rw [List.append_assoc, List.append_assoc]
            exact List.Perm.append_left _ (List.perm_append_comm)
          exact hperm.nodup hndR
        · intro item hmem
          rw [List.mem_append, List.mem_append] at hmem
          rcases hmem with (hmem | hmem) | hmem
          · exact hne item (by rw [List.mem_append]; exact Or.inl hmem)
          · have hmm : getBaseNameV item ∈ W.1.map getBaseNameV :=
              List.mem_map_of_mem getBaseNameV hmem
            rw [hnames] at hmm
            exact hne2 hslice _ hmm
          · exact hne item (by rw [List.mem_append]; exact Or.inr hmem)

/-- C3 witness input: a single-row tab with an ordinary basename. -/
def c3WitnessState : WState := ⟨[[(mimeBaseName, Variant.str "a.txt")]], [], []⟩

/-- C3 witness: the uniqueness theorem applied to a concrete one-row tab. -/
theorem c3_basenames_unique_witness :
    (((FileWatcher.saveItems [] "/t" (fun _ => false) c3WitnessState 0 0).1.items).map
        getBaseNameV).Nodup
    ∧ ∀ item ∈ (FileWatcher.saveItems [] "/t" (fun _ => false) c3WitnessState 0 0).1.items,
        getBaseNameV item ≠ "" :=
  c3_basenames_unique [] "/t" (fun _ => false) c3WitnessState 0 0
    (by decide) (by decide) (by decide) (by decide)

theorem mcontains_minsert_mono {α : Type} (k q : String) (v : α) (m : List (String × α))
    (h : mcontains q m = true) : mcontains q (minsert k v m) = true := by
  by_cases hqk : q = k
  · subst hqk
    exact mcontains_minsert_self _ _ _
  · rw [mcontains_minsert_ne _ _ _ _ hqk]
    exact h

theorem mcontains_minsert_inv {α : Type} (k q : String) (v : α) (m : List (String × α))
    (h : mcontains q (minsert k v m) = true) : q = k ∨ mcontains q m = true := by
  by_cases hqk : q = k
  · exact Or.inl hqk
  · right
    rwa [mcontains_minsert_ne _ _ _ _ hqk] at h

/-- copyItem when both text payloads are present: only the sync path is
stamped. -/
theorem copyItem_eq_both (tabPath : String) (input : VMap)
    (hu : mcontains mimeUriList input = true) (ht : mcontains mimeText input = true) :
    ItemSyncLoader.copyItem tabPath input
      = minsert mimeSyncPath (Variant.str tabPath) input := by
  simp only [ItemSyncLoader.copyItem,
    mcontains_minsert_ne mimeSyncPath mimeUriList _ _ (by decide),
    mcontains_minsert_ne mimeSyncPath mimeText _ _ (by decide), hu, ht]
  simp

/-- copyItem when only text/uri-list is missing. -/
theorem copyItem_eq_noUri (tabPath : String) (input : VMap)
    (hu : mcontains mimeUriList input = false) (ht : mcontains mimeText input = true) :
    ItemSyncLoader.copyItem tabPath input
      = minsert mimeNoSave
          (Variant.bmap (minsert mimeUriList (calculateHash (synthUriData tabPath input)) []))
          (minsert mimeUriList (Variant.bytes (synthUriData tabPath input))
            (minsert mimeSyncPath (Variant.str tabPath) input)) := by
  simp only [ItemSyncLoader.copyItem,
    mcontains_minsert_ne mimeSyncPath mimeUriList _ _ (by decide),
    mcontains_minsert_ne mimeSyncPath mimeText _ _ (by decide), hu, ht]
  simp

/-- copyItem when only text/plain is missing. -/
theorem copyItem_eq_noText (tabPath : String) (input : VMap)
    (hu : mcontains mimeUriList input = true) (ht : mcontains mimeText input = false) :
    ItemSyncLoader.copyItem tabPath input
      = minsert mimeNoSave
          (Variant.bmap (minsert mimeText (calculateHash (synthTextData tabPath input)) []))
          (minsert mimeText (Variant.bytes (synthTextData tabPath input))
            (minsert mimeSyncPath (Variant.str tabPath) input)) := by
  simp only [ItemSyncLoader.copyItem,
    mcontains_minsert_ne mimeSyncPath mimeUriList _ _ (by decide),
    mcontains_minsert_ne mimeSyncPath mimeText _ _ (by decide), hu, ht]
  simp

/-- copyItem when both text payloads are missing. -/
theorem copyItem_eq_noBoth (tabPath : String) (input : VMap)
    (hu : mcontains mimeUriList input = false) (ht : mcontains mimeText input = false) :
    ItemSyncLoader.copyItem tabPath input
      = minsert mimeNoSave
          (Variant.bmap (minsert mimeText (calculateHash (synthTextData tabPath input))
            (minsert mimeUriList (calculateHash (synthUriData tabPath input)) [])))
          (minsert mimeText (Variant.bytes (synthTextData tabPath input))
            (minsert mimeUriList (Variant.bytes (synthUriData tabPath input))
              (minsert mimeSyncPath (Variant.str tabPath) input))) := by
  simp only [ItemSyncLoader.copyItem,
    mcontains_minsert_ne mimeSyncPath mimeUriList _ _ (by decide),
    mcontains_minsert_ne mimeSyncPath mimeText _ _ (by decide), hu, ht]
  simp

/-- C10 counterexample: copyItem overwrites an existing sys:syncpath value
with the destination's source-tab path, so a key other than sys:nosave has
its value changed, refuting "all values are unchanged except possibly
sys:nosave". -/
theorem c10_syncpath_value_changed :
    mcontains mimeSyncPath c10Input = true
    ∧ mimeSyncPath ≠ mimeNoSave
    ∧ mlookup mimeSyncPath (ItemSyncLoader.copyItem "/new" c10Input)
        ≠ mlookup mimeSyncPath c10Input :=
  ⟨by decide, by decide, by decide⟩

/-- C10 (amended): copyItem is purely additive except for sys:nosave and
sys:syncpath.  Every input key survives with its value unchanged — except
sys:syncpath, which is always set to the source tab path, and sys:nosave,
which is replaced exactly when a text payload is synthesized; the only
keys ever added are sys:syncpath, text/plain and/or text/uri-list when
absent, and sys:nosave, which then holds exactly the hashes of the
synthesized payloads. -/
theorem c10_copyitem_additive (tabPath : String) (input : VMap) :
    (mlookup mimeSyncPath (ItemSyncLoader.copyItem tabPath input)
      = some (Variant.str tabPath))
    ∧ (∀ k, k ≠ mimeSyncPath → k ≠ mimeNoSave → k ≠ mimeUriList → k ≠ mimeText →
        mlookup k (ItemSyncLoader.copyItem tabPath input) = mlookup k input)
    ∧ (mcontains mimeUriList input = true →
        mlookup mimeUriList (ItemSyncLoader.copyItem tabPath input)
          = mlookup mimeUriList input)
    ∧ (mcontains mimeText input = true →
        mlookup mimeText (ItemSyncLoader.copyItem tabPath input)
          = mlookup mimeText input)
    ∧ (∀ k, mcontains k input = true →
        mcontains k (ItemSyncLoader.copyItem tabPath input) = true)
    ∧ (∀ k, mcontains k (ItemSyncLoader.copyItem tabPath input) = true →
        mcontains k input = true ∨ k = mimeSyncPath
        ∨ (k = mimeUriList ∧ mcontains mimeUriList input = false)
        ∨ (k = mimeText ∧ mcontains mimeText input = false)
        ∨ (k = mimeNoSave
            ∧ (mcontains mimeUriList input = false ∨ mcontains mimeText input = false)))
    ∧ (mcontains mimeUriList input = true → mcontains mimeText input = true →
        mlookup mimeNoSave (ItemSyncLoader.copyItem tabPath input)
          = mlookup mimeNoSave input)
    ∧ ((mcontains mimeUriList input = false ∨ mcontains mimeText input = false) →
        ∃ ns, mlookup mimeNoSave (ItemSyncLoader.copyItem tabPath input)
            = some (Variant.bmap ns)
          ∧ (mcontains mimeUriList input = false →
              mlookup mimeUriList (ItemSyncLoader.copyItem tabPath input)
                  = some (Variant.bytes (synthUriData tabPath input))
                ∧ mlookup mimeUriList ns
                  = some (calculateHash (synthUriData tabPath input)))
          ∧ (mcontains mimeText input = false →
              mlookup mimeText (ItemSyncLoader.copyItem tabPath input)
                  = some (Variant.bytes (synthTextData tabPath input))
                ∧ mlookup mimeText ns
                  = some (calculateHash (synthTextData tabPath input)))
          ∧ (∀ k2, mcontains k2 ns = true →
              (k2 = mimeUriList ∧ mcontains mimeUriList input = false)
              ∨ (k2 = mimeText ∧ mcontains mimeText input = false))) := by
  cases hu : mcontains mimeUriList input with
  | true =>
    cases ht : mcontains mimeText input with
    | true =>
      rw [copyItem_eq_both tabPath input hu ht]
      refine ⟨?_, ?_, ?_, ?_, ?_, ?_, ?_, ?_⟩
      · exact mlookup_minsert_self _ _ _
      · intro k h1 _ _ _
        exact mlookup_minsert_ne _ _ _ _ h1
      · intro _
        exact mlookup_minsert_ne _ _ _ _ (by decide)
      · intro _
        exact mlookup_minsert_ne _ _ _ _ (by decide)
      · intro k hk
        exact mcontains_minsert_mono _ _ _ _ hk
      · intro k hk
        rcases mcontains_minsert_inv _ _ _ _ hk with h | h
        · exact Or.inr (Or.inl h)
        · exact Or.inl h
      · intro _ _
        exact mlookup_minsert_ne _ _ _ _ (by decide)
      · intro hcase
        rcases hcase with hcase | hcase
        · cases hcase
        · cases hcase
    | false =>
      rw [copyItem_eq_noText tabPath input hu ht]
      refine ⟨?_, ?_, ?_, ?_, ?_, ?_, ?_, ?_⟩
      · rw [mlookup_minsert_ne _ _ _ _ (by decide), mlookup_minsert_ne _ _ _ _ (by decide)]
        exact mlookup_minsert_self _ _ _
      · intro k h1 h2 _ h4
        rw [mlookup_minsert_ne _ _ _ _ h2, mlookup_minsert_ne _ _ _ _ h4,
          mlookup_minsert_ne _ _ _ _ h1]
      · intro _
        rw [mlookup_minsert_ne _ _ _ _ (by decide), mlookup_minsert_ne _ _ _ _ (by decide),
          mlookup_minsert_ne _ _ _ _ (by decide)]
      · intro hct
        cases hct
      · intro k hk
        exact mcontains_minsert_mono _ _ _ _
          (mcontains_minsert_mono _ _ _ _ (mcontains_minsert_mono _ _ _ _ hk))
      · intro k hk
        rcases mcontains_minsert_inv _ _ _ _ hk with h | hk2
        · exact Or.inr (Or.inr (Or.inr (Or.inr ⟨h, Or.inr rfl⟩)))
        · rcases mcontains_minsert_inv _ _ _ _ hk2 with h | hk3
          · exact Or.inr (Or.inr (Or.inr (Or.inl ⟨h, rfl⟩)))
          · rcases mcontains_minsert_inv _ _ _ _ hk3 with h | hk4
            · exact Or.inr (Or.inl h)
            · exact Or.inl hk4
      · intro _ hct
        cases hct
      · intro _
        refine ⟨minsert mimeText (calculateHash (synthTextData tabPath input)) [], ?_, ?_, ?_, ?_⟩
        · exact mlookup_minsert_self _ _ _
        · intro hcu
          cases hcu
        · intro _
          constructor
          · rw [mlookup_minsert_ne _ _ _ _ (by decide)]
            exact mlookup_minsert_self _ _ _
          · exact mlookup_minsert_self _ _ _
        · intro k2 hk2
          rcases mcontains_minsert_inv _ _ _ _ hk2 with h | hk3
          · exact Or.inr ⟨h, rfl⟩
          · simp [mcontains, mlookup] at hk3
  | false =>
    cases ht : mcontains mimeText input with
    | true =>
      rw [copyItem_eq_noUri tabPath input hu ht]
      refine ⟨?_, ?_, ?_, ?_, ?_, ?_, ?_, ?_⟩
      · rw [mlookup_minsert_ne _ _ _ _ (by decide), mlookup_minsert_ne _ _ _ _ (by decide)]
        exact mlookup_minsert_self _ _ _
      · intro k h1 h2 h3 _
        rw [mlookup_minsert_ne _ _ _ _ h2, mlookup_minsert_ne _ _ _ _ h3,
          mlookup_minsert_ne _ _ _ _ h1]
      · intro hcu
        cases hcu
      · intro _
        rw [mlookup_minsert_ne _ _ _ _ (by decide), mlookup_minsert_ne _ _ _ _ (by decide),
          mlookup_minsert_ne _ _ _ _ (by decide)]
      · intro k hk
        exact mcontains_minsert_mono _ _ _ _
          (mcontains_minsert_mono _ _ _ _ (mcontains_minsert_mono _ _ _ _ hk))
      · intro k hk
        rcases mcontains_minsert_inv _ _ _ _ hk with h | hk2
        · exact Or.inr (Or.inr (Or.inr (Or.inr ⟨h, Or.inl rfl⟩)))
        · rcases mcontains_minsert_inv _ _ _ _ hk2 with h | hk3
          · exact Or.inr (Or.inr (Or.inl ⟨h, rfl⟩))
          · rcases mcontains_minsert_inv _ _ _ _ hk3 with h | hk4
            · exact Or.inr (Or.inl h)
            · exact Or.inl hk4
      · intro hcu _
        cases hcu
      · intro _
        refine ⟨minsert mimeUriList (calculateHash (synthUriData tabPath input)) [], ?_, ?_, ?_, ?_⟩
        · exact mlookup_minsert_self _ _ _
        · intro _
          constructor
          · rw [mlookup_minsert_ne _ _ _ _ (by decide)]
            exact mlookup_minsert_self _ _ _
          · exact mlookup_minsert_self _ _ _
        · intro hct
          cases hct
        · intro k2 hk2
          rcases mcontains_minsert_inv _ _ _ _ hk2 with h | hk3
          · exact Or.inl ⟨h, rfl⟩
          · simp [mcontains, mlookup] at hk3
    | false =>
      rw [copyItem_eq_noBoth tabPath input hu ht]
      refine ⟨?_, ?_, ?_, ?_, ?_, ?_, ?_, ?_⟩
      · rw [mlookup_minsert_ne _ _ _ _ (by decide), mlookup_minsert_ne _ _ _ _ (by decide),
          mlookup_minsert_ne _ _ _ _ (by decide)]
        exact mlookup_minsert_self _ _ _
      · intro k h1 h2 h3 h4
        rw [mlookup_minsert_ne _ _ _ _ h2, mlookup_minsert_ne _ _ _ _ h4,
          mlookup_minsert_ne _ _ _ _ h3, mlookup_minsert_ne _ _ _ _ h1]
      · intro hcu
        cases hcu
      · intro hct
        cases hct
      · intro k hk
        exact mcontains_minsert_mono _ _ _ _ (mcontains_minsert_mono _ _ _ _
          (mcontains_minsert_mono _ _ _ _ (mcontains_minsert_mono _ _ _ _ hk)))
      · intro k hk
        rcases mcontains_minsert_inv _ _ _ _ hk with h | hk2
        · exact Or.inr (Or.inr (Or.inr (Or.inr ⟨h, Or.inl rfl⟩)))
        · rcases mcontains_minsert_inv _ _ _ _ hk2 with h | hk3
          · exact Or.inr (Or.inr (Or.inr (Or.inl ⟨h, rfl⟩)))
          · rcases mcontains_minsert_inv _ _ _ _ hk3 with h | hk4
            · exact Or.inr (Or.inr (Or.inl ⟨h, rfl⟩))
            · rcases mcontains_minsert_inv _ _ _ _ hk4 with h | hk5
              · exact Or.inr (Or.inl h)
              · exact Or.inl hk5
      · intro hcu _
        cases hcu
      · intro _
        refine ⟨minsert mimeText (calculateHash (synthTextData tabPath input))
          (minsert mimeUriList (calculateHash (synthUriData tabPath input)) []), ?_, ?_, ?_, ?_⟩
        · exact mlookup_minsert_self _ _ _
        · intro _
          constructor
          · rw [mlookup_minsert_ne _ _ _ _ (by decide), mlookup_minsert_ne _ _ _ _ (by decide)]
            exact mlookup_minsert_self _ _ _
          · rw [mlookup_minsert_ne _ _ _ _ (by decide)]
            exact mlookup_minsert_self _ _ _
        · intro _
          constructor
          · rw [mlookup_minsert_ne _ _ _ _ (by decide)]
            exact mlookup_minsert_self _ _ _
          · exact mlookup_minsert_self _ _ _
        · intro k2 hk2
          rcases mcontains_minsert_inv _ _ _ _ hk2 with h | hk3
          · exact Or.inr ⟨h, rfl⟩
          · rcases mcontains_minsert_inv _ _ _ _ hk3 with h | hk4
            · exact Or.inl ⟨h, rfl⟩
            · simp [mcontains, mlookup] at hk4

/-- C10 witness: the frame theorem applied to the concrete item, checking
the stamped sync path and an untouched key. -/
theorem c10_copyitem_witness :
    mlookup mimeSyncPath (ItemSyncLoader.copyItem "/new" c10Input)
      = some (Variant.str "/new")
    ∧ mlookup "x-custom" (ItemSyncLoader.copyItem "/new" c10Input)
      = mlookup "x-custom" c10Input :=
  ⟨(c10_copyitem_additive "/new" c10Input).1,
   (c10_copyitem_additive "/new" c10Input).2.1 "x-custom"
     (by decide) (by decide) (by decide) (by decide)⟩

end ItemSync
